import Mathlib

/-!
Verification of the geobedts offline geocoding engine.

This file gives a shallow embedding, in Lean 4, of the query-resolution core
of the repository (the compiled sources under `dist/` are the current build of
the TypeScript sources and are the authority where the two differ):

* the reverse resolver of `GeoBed.reverseGeocode` (`dist/geobed.js`),
* the country pass of `GeoBed.extractLocationPieces` (`dist/geobed.js`),
* the scoring and selection of `GeoBed.fuzzyMatchLocation` (`dist/geobed.js`),
* the selection chain of `GeoBed.exactMatchCity` (`dist/geobed.js`),
* `buildNameIndex` (`src/name-index.ts`),
* the integer S2 cell arithmetic of `src/s2-geometry.ts`.

Floating-point trigonometry (the haversine `angularDistance`, and the
lat/lng-to-cell projection, which go through `Math.sin`/`Math.cos`) is not
embedded bit-for-bit; where a claim depends only on the resolution logic that
consumes those values, the geometric stage is abstracted as an explicit
function parameter (`gather`) producing candidate/distance pairs, with
distances as rationals.  JavaScript strings are modelled as Lean strings;
`toLowerCase`/`trim` agree with the Lean operations on the ASCII fragment in
which all concrete inputs of this file lie.  JavaScript `number` values used
for populations are nonnegative integers in the data model and are modelled
as `Nat`; latitudes/longitudes are modelled as `ℚ`.
-/

/-- A city record (`GeobedCity` in `src/types.ts`). -/
structure GeobedCity where
  city : String
  cityAlt : String
  countryIdx : Nat
  regionIdx : Nat
  latitude : ℚ
  longitude : ℚ
  population : Nat
deriving DecidableEq, Repr

/-- The sentinel empty record: `city == ''`, all numeric fields zero. -/
def emptyCity : GeobedCity :=
  { city := "", cityAlt := "", countryIdx := 0, regionIdx := 0,
    latitude := 0, longitude := 0, population := 0 }

/-- `this.cities[i]` (total: out-of-range access yields the empty record;
all uses in the embedded code are guarded in range). -/
def cityAt (cities : List GeobedCity) (i : Nat) : GeobedCity :=
  (cities.get? i).getD emptyCity

/-- `StringInterner.get` from `src/string-interner.ts`: in-range index returns
the interned string, anything else the empty string. -/
def internerGet (lookup : List String) (idx : Nat) : String :=
  (lookup.get? idx).getD ""

/-- ASCII fragment of JavaScript `String.prototype.toLowerCase`. -/
def lowerChar (c : Char) : Char :=
  if 65 ≤ c.toNat ∧ c.toNat ≤ 90 then Char.ofNat (c.toNat + 32) else c

/-- `s.toLowerCase()` on the ASCII fragment (`toLower` in `src/utils.ts`).
Strings are processed through their character lists so that everything
evaluates inside the kernel. -/
def jsToLower (s : String) : String :=
  ⟨s.data.map lowerChar⟩

/-- JavaScript `s.length` (UTF-16 units; equal to the character count on the
basic-multilingual-plane strings handled here). -/
def strLength (s : String) : Nat :=
  s.data.length

/-- JavaScript `s.substring(0, n)`. -/
def strTake (s : String) (n : Nat) : String :=
  ⟨s.data.take n⟩

/-- JavaScript `s.substring(n)`. -/
def strDrop (s : String) (n : Nat) : String :=
  ⟨s.data.drop n⟩

/-- A JavaScript `number` as far as the reverse-geocode input validation is
concerned: NaN, the two infinities, or a finite value (as a rational). -/
inductive JSNum where
  | nan : JSNum
  | inf : JSNum
  | ninf : JSNum
  | num (q : ℚ) : JSNum
deriving DecidableEq, Repr

/-- JavaScript `isFinite`. -/
def jsIsFinite : JSNum → Bool
  | .num _ => true
  | _ => false

/-- JavaScript `<` on numbers: any comparison with NaN is false. -/
def jsLt : JSNum → JSNum → Bool
  | .num a, .num b => a < b
  | .num _, .inf => true
  | .ninf, .num _ => true
  | .ninf, .inf => true
  | _, _ => false

/-- The finite value of a `JSNum` (only used after an `isFinite` guard). -/
def jsNumVal : JSNum → ℚ
  | .num q => q
  | _ => 0

/-! ## Reverse resolver (`GeoBed.reverseGeocode`, `dist/geobed.js` 147-193) -/

/-- One entry of the `candidates` array: a city paired with its angular
distance (in radians, as a rational) from the query point. -/
structure RevCandidate where
  city : GeobedCity
  dist : ℚ
deriving DecidableEq, Repr

/-- `const MAX_DISTANCE = 0.0157` (≈ 100 km in radians). -/
def MAX_DISTANCE : ℚ := mkRat 157 10000

/-- `const NEARBY_THRESHOLD = 0.00157` (≈ 10 km in radians). -/
def NEARBY_THRESHOLD : ℚ := mkRat 157 100000

/-- The preorder realised by the sort comparator
`(a, b) => a.dist - b.dist || b.city.population - a.city.population`:
`a` sorts no later than `b` iff the comparator is `≤ 0` on `(a, b)`. -/
def CandLE (a b : RevCandidate) : Prop :=
  a.dist < b.dist ∨ (a.dist = b.dist ∧ b.city.population ≤ a.city.population)

instance : DecidableRel CandLE := fun a b =>
  inferInstanceAs (Decidable (_ ∨ _))

instance : IsTotal RevCandidate CandLE where
  total a b := by
    rcases lt_trichotomy a.dist b.dist with h | h | h
    · exact Or.inl (Or.inl h)
    · rcases Nat.le_total a.city.population b.city.population with hp | hp
      · exact Or.inr (Or.inr ⟨h.symm, hp⟩)
      · exact Or.inl (Or.inr ⟨h, hp⟩)
    · exact Or.inr (Or.inl h)

instance : IsTrans RevCandidate CandLE where
  trans a b c hab hbc := by
    rcases hab with h1 | ⟨h1, p1⟩
    · rcases hbc with h2 | ⟨h2, _⟩
      · exact Or.inl (h1.trans h2)
      · exact Or.inl (h2 ▸ h1)
    · rcases hbc with h2 | ⟨h2, p2⟩
      · exact Or.inl (h1 ▸ h2)
      · exact Or.inr ⟨h1.trans h2, p2.trans p1⟩

/-- `candidates.sort(...)`: JavaScript `Array.prototype.sort` is stable, so on
the total preorder `CandLE` it coincides with stable insertion sort. -/
def sortCands (candidates : List RevCandidate) : List RevCandidate :=
  List.insertionSort CandLE candidates

/-- The neighborhood-override loop of `reverseGeocode`
(`dist/geobed.js` 181-190): walk the remaining candidates in sort order,
stop at the first one farther than `NEARBY_THRESHOLD`, and replace the
running `best` whenever a candidate has more than ten times its population. -/
def overrideScan (best : RevCandidate) : List RevCandidate → RevCandidate
  | [] => best
  | c :: cs =>
    if NEARBY_THRESHOLD < c.dist then best
    else if best.city.population * 10 < c.city.population then overrideScan c cs
    else overrideScan best cs

/-- Everything of `reverseGeocode` after the sort: take the minimum-distance
candidate, apply the 100 km cutoff, and apply the neighborhood override when
the best candidate has population below 500 000. -/
def resolveSorted : List RevCandidate → GeobedCity
  | [] => emptyCity
  | best :: rest =>
    if MAX_DISTANCE < best.dist then emptyCity
    else if best.city.population < 500000 then (overrideScan best rest).city
    else best.city

/-- `reverseGeocode` from the point where the candidate list has been
gathered (`dist/geobed.js` 168-192): empty list yields the empty record,
otherwise sort and resolve. -/
def reverseResolve (candidates : List RevCandidate) : GeobedCity :=
  resolveSorted (sortCands candidates)

/-- `GeoBed.reverseGeocode` (`dist/geobed.js` 147-193).  The geometric stage
(lines 152-167: leaf cell of the query, level-10 parent, the 13-cell
neighborhood, and the haversine distance of every indexed city) is
floating-point trigonometry and is abstracted as the `gather` parameter,
which maps the validated finite coordinates to the list of
(city, distance) candidates. -/
def reverseGeocode (gather : ℚ → ℚ → List RevCandidate)
    (lat lng : JSNum) : GeobedCity :=
  if !jsIsFinite lat || !jsIsFinite lng
      || jsLt lat (.num (-90)) || jsLt (.num 90) lat
      || jsLt lng (.num (-180)) || jsLt (.num 180) lng then
    emptyCity
  else
    reverseResolve (gather (jsNumVal lat) (jsNumVal lng))

/-! ### Lemmas about the reverse resolver -/

/-- The break predicate of the override loop, as a `takeWhile` test: a
candidate is scanned iff its distance is at most `NEARBY_THRESHOLD`. -/
def nearBool (c : RevCandidate) : Bool :=
  decide (c.dist ≤ NEARBY_THRESHOLD)

lemma sortCands_perm (l : List RevCandidate) : List.Perm (sortCands l) l :=
  List.perm_insertionSort CandLE l

lemma sortCands_eq_nil_iff {l : List RevCandidate} : sortCands l = [] ↔ l = [] := by
  constructor
  · intro h
    have := (sortCands_perm l).symm
    rw [h] at this
    exact this.eq_nil
  · intro h; subst h; rfl

lemma candLE_refl (a : RevCandidate) : CandLE a a :=
  Or.inr ⟨rfl, le_refl _⟩

lemma sortCands_head {l : List RevCandidate} {best : RevCandidate}
    {rest : List RevCandidate} (h : sortCands l = best :: rest) :
    best ∈ l ∧ ∀ c ∈ l, CandLE best c := by
  have hsorted : List.Sorted CandLE (best :: rest) := by
    rw [← h]; exact List.sorted_insertionSort CandLE l
  have hmem : best ∈ l := by
    have : best ∈ sortCands l := by rw [h]; exact List.mem_cons_self _ _
    exact (sortCands_perm l).mem_iff.mp this
  refine ⟨hmem, fun c hc => ?_⟩
  have hc' : c ∈ best :: rest := by
    rw [← h]
    exact (sortCands_perm l).mem_iff.mpr hc
  rcases List.mem_cons.mp hc' with rfl | hc''
  · exact candLE_refl c
  · exact List.rel_of_sorted_cons hsorted c hc''

lemma mem_of_mem_sortCands {l : List RevCandidate} {c : RevCandidate}
    (h : c ∈ sortCands l) : c ∈ l :=
  (sortCands_perm l).mem_iff.mp h

/-- If no scanned candidate has more than ten times the population of the
running best, the override loop leaves it unchanged. -/
lemma overrideScan_no_big : ∀ (l : List RevCandidate) (b : RevCandidate),
    (∀ c ∈ l.takeWhile nearBool, c.city.population ≤ b.city.population * 10) →
    overrideScan b l = b := by
  intro l
  induction l with
  | nil => intro b _; rfl
  | cons c cs ih =>
    intro b h
    by_cases hd : NEARBY_THRESHOLD < c.dist
    · simp [overrideScan, hd]
    · have hnear : nearBool c = true := by
        simp [nearBool]; exact le_of_not_lt hd
      have htake : (c :: cs).takeWhile nearBool = c :: cs.takeWhile nearBool := by
        simp [List.takeWhile_cons, hnear]
      have hc : c.city.population ≤ b.city.population * 10 := by
        apply h; rw [htake]; exact List.mem_cons_self _ _
      have hno : ¬ b.city.population * 10 < c.city.population := not_lt.mpr hc
      simp only [overrideScan, if_neg hd, if_neg hno]
      exact ih b (fun d hdm => h d (by rw [htake]; exact List.mem_cons_of_mem _ hdm))

/-- The override loop returns either the running best itself or some scanned
candidate with more than ten times its population. -/
lemma overrideScan_cases : ∀ (l : List RevCandidate) (b : RevCandidate),
    overrideScan b l = b ∨
      ∃ d ∈ l.takeWhile nearBool,
        b.city.population * 10 < d.city.population ∧ overrideScan b l = d := by
  intro l
  induction l with
  | nil => intro b; exact Or.inl rfl
  | cons c cs ih =>
    intro b
    by_cases hd : NEARBY_THRESHOLD < c.dist
    · left; simp [overrideScan, hd]
    · have hnear : nearBool c = true := by
        simp [nearBool]; exact le_of_not_lt hd
      have htake : (c :: cs).takeWhile nearBool = c :: cs.takeWhile nearBool := by
        simp [List.takeWhile_cons, hnear]
      by_cases hbig : b.city.population * 10 < c.city.population
      · simp only [overrideScan, if_neg hd, if_pos hbig]
        rcases ih c with h1 | ⟨d, hdm, hdp, hde⟩
        · right
          exact ⟨c, by rw [htake]; exact List.mem_cons_self _ _, hbig, h1⟩
        · right
          refine ⟨d, by rw [htake]; exact List.mem_cons_of_mem _ hdm, ?_, hde⟩
          calc b.city.population * 10 < c.city.population := hbig
            _ ≤ c.city.population * 10 := Nat.le_mul_of_pos_right _ (by norm_num)
            _ < d.city.population := hdp
      · simp only [overrideScan, if_neg hd, if_neg hbig]
        rcases ih b with h1 | ⟨d, hdm, hdp, hde⟩
        · exact Or.inl h1
        · exact Or.inr ⟨d, by rw [htake]; exact List.mem_cons_of_mem _ hdm, hdp, hde⟩

/-- If some scanned candidate has more than ten times the population of the
initial best, the override loop returns such a candidate. -/
lemma overrideScan_big : ∀ (l : List RevCandidate) (b : RevCandidate),
    (∃ c ∈ l.takeWhile nearBool, b.city.population * 10 < c.city.population) →
    ∃ d ∈ l.takeWhile nearBool,
      b.city.population * 10 < d.city.population ∧ overrideScan b l = d := by
  intro l
  induction l with
  | nil => intro b h; simp at h
  | cons c cs ih =>
    intro b h
    by_cases hd : NEARBY_THRESHOLD < c.dist
    · exfalso
      have hnear : nearBool c = false := by
        simp [nearBool]; exact hd
      have : (c :: cs).takeWhile nearBool = [] := by
        simp [List.takeWhile_cons, hnear]
      rw [this] at h
      simp at h
    · have hnear : nearBool c = true := by
        simp [nearBool]; exact le_of_not_lt hd
      have htake : (c :: cs).takeWhile nearBool = c :: cs.takeWhile nearBool := by
        simp [List.takeWhile_cons, hnear]
      by_cases hbig : b.city.population * 10 < c.city.population
      · simp only [overrideScan, if_neg hd, if_pos hbig]
        rcases overrideScan_cases cs c with h1 | ⟨d, hdm, hdp, hde⟩
        · exact ⟨c, by rw [htake]; exact List.mem_cons_self _ _, hbig, h1⟩
        · refine ⟨d, by rw [htake]; exact List.mem_cons_of_mem _ hdm, ?_, hde⟩
          calc b.city.population * 10 < c.city.population := hbig
            _ ≤ c.city.population * 10 := Nat.le_mul_of_pos_right _ (by norm_num)
            _ < d.city.population := hdp
      · simp only [overrideScan, if_neg hd, if_neg hbig]
        have h' : ∃ x ∈ cs.takeWhile nearBool,
            b.city.population * 10 < x.city.population := by
          rcases h with ⟨x, hxm, hxp⟩
          rw [htake] at hxm
          rcases List.mem_cons.mp hxm with rfl | hxm'
          · exact absurd hxp hbig
          · exact ⟨x, hxm', hxp⟩
        rcases ih b h' with ⟨d, hdm, hdp, hde⟩
        exact ⟨d, by rw [htake]; exact List.mem_cons_of_mem _ hdm, hdp, hde⟩

/-- For in-range finite coordinates the input validation of `reverseGeocode`
passes and the gathered candidates are resolved. -/
lemma reverseGeocode_valid (gather : ℚ → ℚ → List RevCandidate) {a b : ℚ}
    (ha : -90 ≤ a) (ha' : a ≤ 90) (hb : -180 ≤ b) (hb' : b ≤ 180) :
    reverseGeocode gather (.num a) (.num b) = reverseResolve (gather a b) := by
  have h1 : ¬ a < -90 := not_lt.mpr ha
  have h2 : ¬ (90 : ℚ) < a := not_lt.mpr ha'
  have h3 : ¬ b < -180 := not_lt.mpr hb
  have h4 : ¬ (180 : ℚ) < b := not_lt.mpr hb'
  simp [reverseGeocode, jsIsFinite, jsLt, jsNumVal, h1, h2, h3, h4]

/-! ### Claims about the reverse resolver -/

/-- Claim C1: for every finite input pair (lat, lng) with |lat| ≤ 90 and
|lng| ≤ 180, if the candidate set gathered from the query cell and its
neighbor cells is non-empty but the minimum angular distance to any
candidate exceeds `MAX_DISTANCE` (0.0157 rad ≈ 100 km), then
`reverseGeocode` returns the empty record rather than the nearest
candidate. -/
theorem claim_c1_reverse_cutoff (gather : ℚ → ℚ → List RevCandidate)
    (a b : ℚ) (ha : -90 ≤ a) (ha' : a ≤ 90) (hb : -180 ≤ b) (hb' : b ≤ 180)
    (hne : gather a b ≠ [])
    (hfar : ∀ c ∈ gather a b, MAX_DISTANCE < c.dist) :
    reverseGeocode gather (.num a) (.num b) = emptyCity := by
  rw [reverseGeocode_valid gather ha ha' hb hb']
  rcases h : sortCands (gather a b) with _ | ⟨best, rest⟩
  · exact absurd (sortCands_eq_nil_iff.mp h) hne
  · have hbest := (sortCands_head h).1
    have hcut : MAX_DISTANCE < best.dist := hfar best hbest
    unfold reverseResolve
    rw [h]
    simp [resolveSorted, hcut]

/-- Witness for C1 at a concrete input: one candidate at distance 1 rad. -/
theorem claim_c1_witness :
    reverseGeocode
      (fun _ _ => [⟨{ city := "Far", cityAlt := "", countryIdx := 0,
                      regionIdx := 0, latitude := 0, longitude := 0,
                      population := 7 }, 1⟩])
      (.num 0) (.num 0) = emptyCity :=
  claim_c1_reverse_cutoff _ 0 0 (by norm_num) (by norm_num) (by norm_num)
    (by norm_num) (by simp)
    (by intro c hc; simp at hc; subst hc; decide)

/-- Claim C2: whenever lat or lng is NaN or infinite, or |lat| > 90, or
|lng| > 180, `reverseGeocode` returns the empty record. -/
theorem claim_c2_reverse_validation (gather : ℚ → ℚ → List RevCandidate)
    (lat lng : JSNum)
    (h : (∀ q, lat ≠ .num q) ∨ (∀ q, lng ≠ .num q)
        ∨ (∃ q, lat = .num q ∧ 90 < |q|) ∨ (∃ q, lng = .num q ∧ 180 < |q|)) :
    reverseGeocode gather lat lng = emptyCity := by
  rcases h with h | h | ⟨q, rfl, hq⟩ | ⟨q, rfl, hq⟩
  · cases lat with
    | num q => exact absurd rfl (h q)
    | nan => simp [reverseGeocode, jsIsFinite]
    | inf => simp [reverseGeocode, jsIsFinite]
    | ninf => simp [reverseGeocode, jsIsFinite]
  · cases lng with
    | num q => exact absurd rfl (h q)
    | nan => simp [reverseGeocode, jsIsFinite]
    | inf => simp [reverseGeocode, jsIsFinite]
    | ninf => simp [reverseGeocode, jsIsFinite]
  · rcases lt_abs.mp hq with hlt | hlt
    · have : jsLt (.num 90) (.num q) = true := by
        simp [jsLt]; exact hlt
      simp [reverseGeocode, this]
    · have : jsLt (.num q) (.num (-90)) = true := by
        simp [jsLt]; linarith
      simp [reverseGeocode, this]
  · rcases lt_abs.mp hq with hlt | hlt
    · have : jsLt (.num 180) (.num q) = true := by
        simp [jsLt]; exact hlt
      simp [reverseGeocode, this]
    · have : jsLt (.num q) (.num (-180)) = true := by
        simp [jsLt]; linarith
      simp [reverseGeocode, this]

/-- Witness for C2 at a concrete input: a NaN latitude. -/
theorem claim_c2_witness :
    reverseGeocode (fun _ _ => []) .nan (.num 0) = emptyCity :=
  claim_c2_reverse_validation _ .nan (.num 0)
    (Or.inl (by intro q h; cases h))

lemma mem_of_mem_takeWhile {α : Type} {p : α → Bool} :
    ∀ {l : List α} {x : α}, x ∈ l.takeWhile p → x ∈ l := by
  intro l
  induction l with
  | nil => intro x h; simp [List.takeWhile] at h
  | cons a as ih =>
    intro x h
    rw [List.takeWhile_cons] at h
    by_cases hp : p a
    · rw [if_pos hp] at h
      rcases List.mem_cons.mp h with rfl | h'
      · exact List.mem_cons_self _ _
      · exact List.mem_cons_of_mem _ (ih h')
    · rw [if_neg hp] at h
      simp at h

/-- Concrete city records used by the counterexamples and witnesses below. -/
def cityA : GeobedCity :=
  { city := "Alpha", cityAlt := "", countryIdx := 0, regionIdx := 0,
    latitude := 0, longitude := 0, population := 100 }

def cityB : GeobedCity :=
  { city := "Beta", cityAlt := "", countryIdx := 0, regionIdx := 0,
    latitude := 0, longitude := 0, population := 50 }

def cityC : GeobedCity :=
  { city := "Gamma", cityAlt := "", countryIdx := 0, regionIdx := 0,
    latitude := 0, longitude := 0, population := 2000 }

def cityD : GeobedCity :=
  { city := "Delta", cityAlt := "", countryIdx := 0, regionIdx := 0,
    latitude := 0, longitude := 0, population := 1000 }

/-- Counterexample to claim C3 as stated.  The claim says a nearby candidate
with AT LEAST ten times the best candidate's population replaces it; the code
(`c.city.population > best.city.population * 10`) requires STRICTLY more than
ten times.  Here `cityD` is within the 10 km threshold and has exactly ten
times `cityA`'s population, yet `reverseGeocode` still returns `cityA`. -/
theorem claim_c3_counterexample :
    reverseGeocode (fun _ _ => [⟨cityA, 0⟩, ⟨cityD, mkRat 1 1024⟩])
        (.num 0) (.num 0) = cityA
    ∧ cityD.population = 10 * cityA.population
    ∧ mkRat 1 1024 ≤ NEARBY_THRESHOLD
    ∧ (0 : ℚ) ≤ MAX_DISTANCE
    ∧ cityA.population < 500000
    ∧ cityD.city ≠ cityA.city := by
  refine ⟨by rfl, by decide, by decide, by decide, by decide, by decide⟩

/-- Claim C3 (amended): with a valid query whose minimum-distance candidate
`best` passes the 100 km cutoff and has population below 500 000, the scan
over the remaining candidates in increasing distance, up to
`NEARBY_THRESHOLD`, returns `best` itself when no scanned candidate has MORE
than ten times `best`'s population, and otherwise returns a scanned candidate
with more than ten times `best`'s population. -/
theorem claim_c3_override_amended (gather : ℚ → ℚ → List RevCandidate)
    (a b : ℚ) (ha : -90 ≤ a) (ha' : a ≤ 90) (hb : -180 ≤ b) (hb' : b ≤ 180)
    (best : RevCandidate) (rest : List RevCandidate)
    (hsort : sortCands (gather a b) = best :: rest)
    (hcut : best.dist ≤ MAX_DISTANCE)
    (hpop : best.city.population < 500000) :
    ((∀ c ∈ rest.takeWhile nearBool,
        c.city.population ≤ best.city.population * 10) →
      reverseGeocode gather (.num a) (.num b) = best.city)
    ∧ ((∃ c ∈ rest.takeWhile nearBool,
          best.city.population * 10 < c.city.population) →
        ∃ d ∈ rest.takeWhile nearBool,
          best.city.population * 10 < d.city.population ∧
          reverseGeocode gather (.num a) (.num b) = d.city) := by
  have hres : reverseGeocode gather (.num a) (.num b)
      = (overrideScan best rest).city := by
    rw [reverseGeocode_valid gather ha ha' hb hb']
    unfold reverseResolve
    rw [hsort]
    simp [resolveSorted, not_lt.mpr hcut, hpop]
  constructor
  · intro hno
    rw [hres, overrideScan_no_big rest best hno]
  · intro hex
    rcases overrideScan_big rest best hex with ⟨d, hdm, hdp, hde⟩
    exact ⟨d, hdm, hdp, by rw [hres, hde]⟩

/-- Witness for (amended) C3 at a concrete input: `cityC` has more than ten
times `cityA`'s population and lies within the 10 km threshold, so it is
returned in place of `cityA`. -/
theorem claim_c3_witness :
    ∃ d ∈ [RevCandidate.mk cityC (mkRat 1 1024)].takeWhile nearBool,
      cityA.population * 10 < d.city.population ∧
      reverseGeocode (fun _ _ => [⟨cityA, 0⟩, ⟨cityC, mkRat 1 1024⟩])
        (.num 0) (.num 0) = d.city :=
  (claim_c3_override_amended _ 0 0 (by norm_num) (by norm_num) (by norm_num)
      (by norm_num) ⟨cityA, 0⟩ [⟨cityC, mkRat 1 1024⟩] (by rfl)
      (by decide) (by decide)).2
    ⟨⟨cityC, mkRat 1 1024⟩, by decide, by decide⟩

/-- Counterexample to claim C10 as stated.  Two candidates (`cityA`, `cityB`)
lie at the same minimal distance 0 and the larger-population one among them is
`cityA`, but the neighborhood override then replaces it with `cityC` (within
10 km, more than ten times the population), so `reverseGeocode` does not
return the largest-population equidistant candidate. -/
theorem claim_c10_counterexample :
    reverseGeocode (fun _ _ => [⟨cityA, 0⟩, ⟨cityB, 0⟩, ⟨cityC, mkRat 1 1024⟩])
        (.num 0) (.num 0) = cityC
    ∧ (∀ c ∈ [RevCandidate.mk cityA 0, ⟨cityB, 0⟩, ⟨cityC, mkRat 1 1024⟩],
        (0 : ℚ) ≤ c.dist)
    ∧ (∀ c ∈ [RevCandidate.mk cityA 0, ⟨cityB, 0⟩, ⟨cityC, mkRat 1 1024⟩],
        c.dist = 0 → c.city.population ≤ cityA.population)
    ∧ cityC.city ≠ cityA.city ∧ cityC.city ≠ cityB.city := by
  refine ⟨by rfl, by decide, by decide, by decide, by decide⟩

/-- Claim C10 (amended): for every valid query, the pre-override best
candidate is a minimum-distance candidate carrying the largest population
among the candidates at that minimal distance; `reverseGeocode` returns its
city whenever it passes the 100 km cutoff and the neighborhood override does
not fire (because it has population at least 500 000, or because no gathered
candidate has more than ten times its population). -/
theorem claim_c10_tie_amended (gather : ℚ → ℚ → List RevCandidate)
    (a b : ℚ) (ha : -90 ≤ a) (ha' : a ≤ 90) (hb : -180 ≤ b) (hb' : b ≤ 180)
    (hne : gather a b ≠ []) :
    ∃ best ∈ gather a b,
      (∀ c ∈ gather a b, best.dist ≤ c.dist)
      ∧ (∀ c ∈ gather a b, c.dist = best.dist →
          c.city.population ≤ best.city.population)
      ∧ (best.dist ≤ MAX_DISTANCE →
          (500000 ≤ best.city.population
            ∨ ∀ c ∈ gather a b, c.city.population ≤ best.city.population * 10) →
          reverseGeocode gather (.num a) (.num b) = best.city) := by
  rcases h : sortCands (gather a b) with _ | ⟨best, rest⟩
  · exact absurd (sortCands_eq_nil_iff.mp h) hne
  have hhead := sortCands_head h
  refine ⟨best, hhead.1, ?_, ?_, ?_⟩
  · intro c hc
    rcases hhead.2 c hc with hlt | ⟨heq, _⟩
    · exact le_of_lt hlt
    · exact le_of_eq heq
  · intro c hc hdist
    rcases hhead.2 c hc with hlt | ⟨_, hp⟩
    · exact absurd hlt (by rw [hdist]; exact lt_irrefl _)
    · exact hp
  · intro hcut hno
    rw [reverseGeocode_valid gather ha ha' hb hb']
    unfold reverseResolve
    rw [h]
    simp only [resolveSorted, if_neg (not_lt.mpr hcut)]
    rcases hno with hbig | hsmall
    · rw [if_neg (not_lt.mpr hbig)]
    · by_cases h5 : best.city.population < 500000
      · rw [if_pos h5]
        have : overrideScan best rest = best := by
          apply overrideScan_no_big
          intro c hc
          apply hsmall
          have hc1 : c ∈ rest := mem_of_mem_takeWhile hc
          have hc2 : c ∈ sortCands (gather a b) := by
            rw [h]; exact List.mem_cons_of_mem _ hc1
          exact mem_of_mem_sortCands hc2
        rw [this]
      · rw [if_neg h5]

/-- Witness for (amended) C10 at a concrete input: two candidates tie at
distance 0 and the higher-population one, `cityA`, is returned. -/
theorem claim_c10_witness :
    ∃ best ∈ [RevCandidate.mk cityA 0, ⟨cityB, 0⟩],
      (∀ c ∈ [RevCandidate.mk cityA 0, ⟨cityB, 0⟩], best.dist ≤ c.dist)
      ∧ (∀ c ∈ [RevCandidate.mk cityA 0, ⟨cityB, 0⟩], c.dist = best.dist →
          c.city.population ≤ best.city.population)
      ∧ (best.dist ≤ MAX_DISTANCE →
          (500000 ≤ best.city.population
            ∨ ∀ c ∈ [RevCandidate.mk cityA 0, ⟨cityB, 0⟩],
                c.city.population ≤ best.city.population * 10) →
          reverseGeocode (fun _ _ => [⟨cityA, 0⟩, ⟨cityB, 0⟩])
            (.num 0) (.num 0) = best.city) :=
  claim_c10_tie_amended (fun _ _ => [⟨cityA, 0⟩, ⟨cityB, 0⟩]) 0 0
    (by norm_num) (by norm_num) (by norm_num) (by norm_num) (by simp)

/-! ## Country pass of `GeoBed.extractLocationPieces`
(`dist/geobed.js` 442-480, with `countriesByNameLength` built at line 58) -/

/-- The fields of `CountryInfo` consumed by the country pass. -/
structure CountryEntry where
  country : String
  iso : String
deriving DecidableEq, Repr

/-- One iteration of the country loop: try the five comparisons of
`extractLocationPieces` (exact, prefixed or suffixed by `", "` or `" "`)
of the lowercased query against the lowercased country name; on a hit
return the ISO code and the query with the matched segment removed. -/
def countryStep (co : CountryEntry) (n : String) : Option (String × String) :=
  let cl := jsToLower co.country
  let nl := jsToLower n
  if nl == cl then some (co.iso, "")
  else
    let pc := cl ++ ", "
    if strLength pc < strLength nl && strTake nl (strLength pc) == pc then
      some (co.iso, strDrop n (strLength pc))
    else
      let ps := cl ++ " "
      if strLength ps < strLength nl && strTake nl (strLength ps) == ps then
        some (co.iso, strDrop n (strLength ps))
      else
        let sc := ", " ++ cl
        if strLength sc < strLength nl
            && strDrop nl (strLength nl - strLength sc) == sc then
          some (co.iso, strTake n (strLength n - strLength sc))
        else
          let ss := " " ++ cl
          if strLength ss < strLength nl
              && strDrop nl (strLength nl - strLength ss) == ss then
            some (co.iso, strTake n (strLength n - strLength ss))
          else none

/-- The country loop: first country (in list order) whose `countryStep`
hits sets the ISO code and the residual query; no hit leaves both as they
were (`countryISO = ''`). -/
def countryPass : List CountryEntry → String → String × String
  | [], n => ("", n)
  | co :: rest, n =>
    match countryStep co n with
    | some r => r
    | none => countryPass rest n

/-- The order realised by the comparator
`(a, b) => b.country.length - a.country.length`: descending name length. -/
def CountryOrd (a b : CountryEntry) : Prop :=
  b.country.length ≤ a.country.length

instance : DecidableRel CountryOrd := fun a b =>
  inferInstanceAs (Decidable (_ ≤ _))

instance : IsTotal CountryEntry CountryOrd where
  total a b := (Nat.le_total b.country.length a.country.length).imp id id

instance : IsTrans CountryEntry CountryOrd where
  trans _ _ _ hab hbc := le_trans hbc hab

/-- `countriesByNameLength` (`dist/geobed.js` 58): the country table sorted
by descending country-name length with JavaScript's stable `sort`. -/
def sortCountries (cs : List CountryEntry) : List CountryEntry :=
  List.insertionSort CountryOrd cs

lemma countryPass_first : ∀ (l : List CountryEntry) (n : String),
    List.Sorted CountryOrd l →
    (countryPass l n = ("", n) ∧ ∀ co ∈ l, countryStep co n = none)
    ∨ (∃ co ∈ l, ∃ r, countryStep co n = some r ∧ countryPass l n = r
        ∧ ∀ co' ∈ l, countryStep co' n ≠ none →
            co'.country.length ≤ co.country.length) := by
  intro l
  induction l with
  | nil => intro n _; exact Or.inl ⟨rfl, by simp⟩
  | cons c cs ih =>
    intro n hsorted
    rcases hstep : countryStep c n with _ | r
    · rcases ih n hsorted.of_cons with ⟨he, hall⟩ | ⟨co, hm, r, hr, he, hmax⟩
      · left
        refine ⟨?_, ?_⟩
        · simp only [countryPass, hstep]; exact he
        · intro co hco
          rcases List.mem_cons.mp hco with rfl | hco'
          · exact hstep
          · exact hall co hco'
      · right
        refine ⟨co, List.mem_cons_of_mem _ hm, r, hr, ?_, ?_⟩
        · simp only [countryPass, hstep]; exact he
        · intro co' hco' hne
          rcases List.mem_cons.mp hco' with rfl | hco''
          · exact absurd hstep hne
          · exact hmax co' hco'' hne
    · right
      refine ⟨c, List.mem_cons_self _ _, r, hstep, ?_, ?_⟩
      · simp only [countryPass, hstep]
      · intro co' hco' _
        rcases List.mem_cons.mp hco' with rfl | hco''
        · exact le_refl _
        · exact List.rel_of_sorted_cons hsorted co' hco''

/-- The two-entry country table of the C4 scenario. -/
def entryGuinea : CountryEntry := { country := "Guinea", iso := "GN" }

def entryGuineaBissau : CountryEntry :=
  { country := "Guinea-Bissau", iso := "GW" }

/-- Claim C4: the country pass tries countries in order of descending
country-name length against the lowercased query (exact, prefix + `", "` or
space, suffix preceded by `", "` or space); the first hit sets the ISO code
and removes the matched segment.  Consequently the country matched is always
one of maximal name length among all matching countries, and for the query
`"Bissau, Guinea-Bissau"` over a table containing both Guinea and
Guinea-Bissau the extracted ISO is `"GW"` (with residual `"Bissau"`), not
Guinea's `"GN"`. -/
theorem claim_c4_country_longest :
    (∀ (cs : List CountryEntry) (n : String),
      (∃ co ∈ cs, countryStep co n ≠ none) →
      ∃ co ∈ cs, ∃ r, countryStep co n = some r
        ∧ countryPass (sortCountries cs) n = r
        ∧ ∀ co' ∈ cs, countryStep co' n ≠ none →
            co'.country.length ≤ co.country.length)
    ∧ countryPass (sortCountries [entryGuinea, entryGuineaBissau])
        "Bissau, Guinea-Bissau" = ("GW", "Bissau") := by
  constructor
  · intro cs n hex
    have hperm : List.Perm (sortCountries cs) cs :=
      List.perm_insertionSort CountryOrd cs
    have hsorted : List.Sorted CountryOrd (sortCountries cs) :=
      List.sorted_insertionSort CountryOrd cs
    rcases countryPass_first (sortCountries cs) n hsorted with
        ⟨_, hall⟩ | ⟨co, hm, r, hr, he, hmax⟩
    · rcases hex with ⟨co, hco, hne⟩
      exact absurd (hall co (hperm.mem_iff.mpr hco)) hne
    · refine ⟨co, hperm.mem_iff.mp hm, r, hr, he, ?_⟩
      intro co' hco' hne
      exact hmax co' (hperm.mem_iff.mpr hco') hne
  · rfl

/-- Witness for C4's universal part at the C4 scenario input. -/
theorem claim_c4_witness :
    ∃ co ∈ [entryGuinea, entryGuineaBissau], ∃ r,
      countryStep co "Bissau, Guinea-Bissau" = some r
      ∧ countryPass (sortCountries [entryGuinea, entryGuineaBissau])
          "Bissau, Guinea-Bissau" = r
      ∧ ∀ co' ∈ [entryGuinea, entryGuineaBissau],
          countryStep co' "Bissau, Guinea-Bissau" ≠ none →
          co'.country.length ≤ co.country.length :=
  claim_c4_country_longest.1 [entryGuinea, entryGuineaBissau]
    "Bissau, Guinea-Bissau"
    ⟨entryGuineaBissau, by decide, by decide⟩

/-! ## Exact-match selection (`GeoBed.exactMatchCity`, `dist/geobed.js`
202-281).  The embedding starts from the list `matchingCities` of survivors
of the case-insensitive equality filter. -/

/-- The first selection loop: best region match, population tie-break
(`dist/geobed.js` 236-242). -/
def regionLoop (rl : List String) (nSt : String) :
    GeobedCity → List GeobedCity → GeobedCity
  | res, [] => res
  | res, c :: cs =>
    if jsToLower nSt = jsToLower (internerGet rl c.regionIdx) then
      if res.city = "" ∨ res.population < c.population then regionLoop rl nSt c cs
      else regionLoop rl nSt res cs
    else regionLoop rl nSt res cs

/-- The second selection loop: best region AND country match
(`dist/geobed.js` 244-252). -/
def regionCountryLoop (cl rl : List String) (nSt nCo : String) :
    GeobedCity → List GeobedCity → GeobedCity
  | res, [] => res
  | res, c :: cs =>
    if jsToLower nSt = jsToLower (internerGet rl c.regionIdx)
        ∧ jsToLower nCo = jsToLower (internerGet cl c.countryIdx) then
      if res.city = "" ∨ res.population < c.population then
        regionCountryLoop cl rl nSt nCo c cs
      else regionCountryLoop cl rl nSt nCo res cs
    else regionCountryLoop cl rl nSt nCo res cs

/-- Strictly-improving maximum-population loop, used both for the
country-match branch (`dist/geobed.js` 264-269) and the final fallback
(273-277). -/
def maxPopLoop : GeobedCity → List GeobedCity → GeobedCity
  | res, [] => res
  | res, c :: cs =>
    if res.population < c.population then maxPopLoop c cs else maxPopLoop res cs

/-- The selection chain of `exactMatchCity` on the surviving candidates
(`dist/geobed.js` 231-280). -/
def exactSelect (cl rl : List String) (nSt nCo : String)
    (matching : List GeobedCity) : GeobedCity :=
  if matching.length = 1 then matching.headD emptyCity
  else if 1 < matching.length then
    let r1 := regionLoop rl nSt emptyCity matching
    let r2 := regionCountryLoop cl rl nSt nCo emptyCity matching
    let r3 := if r2.city ≠ "" then r2 else r1
    let r4 :=
      if r3.city = "" then
        maxPopLoop emptyCity (matching.filter
          (fun c => jsToLower nCo = jsToLower (internerGet cl c.countryIdx)))
      else r3
    if r4.city = "" then maxPopLoop r4 matching else r4
  else emptyCity

lemma regionLoop_no_match (rl : List String) (nSt : String) :
    ∀ (l : List GeobedCity) (res : GeobedCity),
    (∀ c ∈ l, jsToLower nSt ≠ jsToLower (internerGet rl c.regionIdx)) →
    regionLoop rl nSt res l = res := by
  intro l
  induction l with
  | nil => intro res _; rfl
  | cons c cs ih =>
    intro res h
    have hc : jsToLower nSt ≠ jsToLower (internerGet rl c.regionIdx) :=
      h c (List.mem_cons_self _ _)
    simp only [regionLoop, if_neg hc]
    exact ih res (fun d hd => h d (List.mem_cons_of_mem _ hd))

lemma regionCountryLoop_no_match (cl rl : List String) (nSt nCo : String) :
    ∀ (l : List GeobedCity) (res : GeobedCity),
    (∀ c ∈ l, jsToLower nSt ≠ jsToLower (internerGet rl c.regionIdx)) →
    regionCountryLoop cl rl nSt nCo res l = res := by
  intro l
  induction l with
  | nil => intro res _; rfl
  | cons c cs ih =>
    intro res h
    have hc : ¬ (jsToLower nSt = jsToLower (internerGet rl c.regionIdx)
        ∧ jsToLower nCo = jsToLower (internerGet cl c.countryIdx)) := by
      intro hand; exact h c (List.mem_cons_self _ _) hand.1
    simp only [regionCountryLoop, if_neg hc]
    exact ih res (fun d hd => h d (List.mem_cons_of_mem _ hd))

lemma maxPopLoop_mem : ∀ (l : List GeobedCity) (res : GeobedCity),
    maxPopLoop res l = res ∨ maxPopLoop res l ∈ l := by
  intro l
  induction l with
  | nil => intro res; exact Or.inl rfl
  | cons c cs ih =>
    intro res
    by_cases h : res.population < c.population
    · simp only [maxPopLoop, if_pos h]
      rcases ih c with he | hm
      · exact Or.inr (by rw [he]; exact List.mem_cons_self _ _)
      · exact Or.inr (List.mem_cons_of_mem _ hm)
    · simp only [maxPopLoop, if_neg h]
      rcases ih res with he | hm
      · exact Or.inl he
      · exact Or.inr (List.mem_cons_of_mem _ hm)

lemma maxPopLoop_ge : ∀ (l : List GeobedCity) (res : GeobedCity),
    res.population ≤ (maxPopLoop res l).population
    ∧ ∀ c ∈ l, c.population ≤ (maxPopLoop res l).population := by
  intro l
  induction l with
  | nil => intro res; exact ⟨le_refl _, by simp⟩
  | cons c cs ih =>
    intro res
    by_cases h : res.population < c.population
    · simp only [maxPopLoop, if_pos h]
      refine ⟨le_trans (le_of_lt h) (ih c).1, ?_⟩
      intro d hd
      rcases List.mem_cons.mp hd with rfl | hd'
      · exact (ih d).1
      · exact (ih c).2 d hd'
    · simp only [maxPopLoop, if_neg h]
      refine ⟨(ih res).1, ?_⟩
      intro d hd
      rcases List.mem_cons.mp hd with rfl | hd'
      · exact le_trans (not_lt.mp h) (ih res).1
      · exact (ih res).2 d hd'

lemma maxPopLoop_stay : ∀ (l : List GeobedCity) (res : GeobedCity),
    (∀ c ∈ l, c.population ≤ res.population) → maxPopLoop res l = res := by
  intro l
  induction l with
  | nil => intro res _; rfl
  | cons c cs ih =>
    intro res h
    have hc : ¬ res.population < c.population :=
      not_lt.mpr (h c (List.mem_cons_self _ _))
    simp only [maxPopLoop, if_neg hc]
    exact ih res (fun d hd => h d (List.mem_cons_of_mem _ hd))

/-- Counterexample to claim C7 as stated.  Two survivors, neither matching
the extracted state code by region nor the extracted country by country, but
both with population 0: the final fallback loop of `exactMatchCity` only
replaces the running result on a STRICT population increase, so the empty
record is returned, not the highest-population survivor. -/
theorem claim_c7_counterexample :
    exactSelect [] [] "ZZ" "QQ"
      [{ city := "Ax", cityAlt := "", countryIdx := 0, regionIdx := 0,
         latitude := 0, longitude := 0, population := 0 },
       { city := "Bx", cityAlt := "", countryIdx := 0, regionIdx := 0,
         latitude := 0, longitude := 0, population := 0 }] = emptyCity
    ∧ jsToLower "ZZ" ≠ jsToLower (internerGet [] 0)
    ∧ jsToLower "QQ" ≠ jsToLower (internerGet [] 0)
    ∧ emptyCity.city = "" := by
  refine ⟨by rfl, by decide, by decide, rfl⟩

/-- Claim C7 (amended): with two or more survivors of the equality filter,
none matching the state code by region and none matching the country ISO by
country, `exactMatchCity` returns a maximal-population survivor provided some
survivor has positive population; when every survivor has population 0 it
returns the empty record. -/
theorem claim_c7_exact_fallback (cl rl : List String) (nSt nCo : String)
    (matching : List GeobedCity) (h2 : 2 ≤ matching.length)
    (hst : ∀ c ∈ matching,
      jsToLower nSt ≠ jsToLower (internerGet rl c.regionIdx))
    (hco : ∀ c ∈ matching,
      jsToLower nCo ≠ jsToLower (internerGet cl c.countryIdx)) :
    ((∃ c ∈ matching, 0 < c.population) →
      ∃ r ∈ matching, exactSelect cl rl nSt nCo matching = r
        ∧ ∀ c ∈ matching, c.population ≤ r.population)
    ∧ ((∀ c ∈ matching, c.population = 0) →
        exactSelect cl rl nSt nCo matching = emptyCity) := by
  have hne1 : ¬ matching.length = 1 := by omega
  have hgt1 : 1 < matching.length := by omega
  have hr1 : regionLoop rl nSt emptyCity matching = emptyCity :=
    regionLoop_no_match rl nSt matching emptyCity hst
  have hr2 : regionCountryLoop cl rl nSt nCo emptyCity matching = emptyCity :=
    regionCountryLoop_no_match cl rl nSt nCo matching emptyCity hst
  have hfilter : matching.filter
      (fun c => jsToLower nCo = jsToLower (internerGet cl c.countryIdx)) = [] := by
    rw [List.filter_eq_nil_iff]
    intro c hc
    simpa using hco c hc
  have hsel : exactSelect cl rl nSt nCo matching
      = maxPopLoop emptyCity matching := by
    simp only [exactSelect, if_neg hne1, if_pos hgt1, hr1, hr2, hfilter]
    simp [emptyCity, maxPopLoop]
  constructor
  · intro hex
    rcases maxPopLoop_mem matching emptyCity with he | hm
    · exfalso
      rcases hex with ⟨c, hc, hcpos⟩
      have := (maxPopLoop_ge matching emptyCity).2 c hc
      rw [he] at this
      simp [emptyCity] at this
      omega
    · exact ⟨maxPopLoop emptyCity matching, hm, hsel,
        (maxPopLoop_ge matching emptyCity).2⟩
  · intro hall
    rw [hsel]
    apply maxPopLoop_stay
    intro c hc
    rw [hall c hc]
    exact Nat.zero_le _

/-- Witness for (amended) C7 at a concrete input: two survivors with positive
population and no qualifier match; the larger, `cityA`, is returned. -/
theorem claim_c7_witness :
    ∃ r ∈ [cityA, cityB], exactSelect [] [] "ZZ" "QQ" [cityA, cityB] = r
      ∧ ∀ c ∈ [cityA, cityB], c.population ≤ r.population :=
  (claim_c7_exact_fallback [] [] "ZZ" "QQ" [cityA, cityB] (by decide)
      (by decide) (by decide)).1 ⟨cityA, by decide, by decide⟩

/-! ## Name index (`buildNameIndex`, `src/name-index.ts`) -/

/-- JavaScript `s.trim()` (ASCII whitespace fragment). -/
def strTrim (s : String) : String :=
  ⟨((s.data.dropWhile Char.isWhitespace).reverse.dropWhile
      Char.isWhitespace).reverse⟩

/-- JavaScript `s.split(',')` on character lists: every comma separates,
empty segments are kept. -/
def splitCommaChars : List Char → List Char → List (List Char)
  | [], acc => [acc.reverse]
  | c :: cs, acc =>
    if c = ',' then acc.reverse :: splitCommaChars cs []
    else splitCommaChars cs (c :: acc)

/-- JavaScript `s.split(',')`. -/
def splitOnComma (s : String) : List String :=
  (splitCommaChars s.data []).map fun l => ⟨l⟩

/-- The keys contributed by one city record in `buildNameIndex`: the
lowercased primary name when non-empty, then, when the alt blob is non-empty,
the lowercased trimmed non-empty comma-separated segments, in order. -/
def cityKeys (c : GeobedCity) : List String :=
  (if 0 < strLength c.city then [jsToLower c.city] else [])
    ++ (if 0 < strLength c.cityAlt then
          (splitOnComma c.cityAlt).filterMap fun alt =>
            let t := strTrim alt
            if strLength t = 0 then none else some (jsToLower t)
        else [])

/-- One `nameIndex` insertion (`src/name-index.ts` 8-13 and 22-27): push onto
an existing key's list, or append a fresh entry.  The JS `Map` is modelled as
an association list in insertion order. -/
def nameIndexInsert (idx : List (String × List Nat)) (key : String)
    (i : Nat) : List (String × List Nat) :=
  if idx.any fun e => decide (e.1 = key) then
    idx.map fun e => if e.1 = key then (e.1, e.2 ++ [i]) else e
  else idx ++ [(key, [i])]

/-- All insertions performed for city `i`. -/
def insertCityKeys (idx : List (String × List Nat)) (i : Nat)
    (c : GeobedCity) : List (String × List Nat) :=
  (cityKeys c).foldl (fun idx k => nameIndexInsert idx k i) idx

/-- The `for` loop of `buildNameIndex`, with `i` the index of the first city
of the remaining list. -/
def buildNameIndexAux : Nat → List GeobedCity → List (String × List Nat) →
    List (String × List Nat)
  | _, [], idx => idx
  | i, c :: cs, idx => buildNameIndexAux (i + 1) cs (insertCityKeys idx i c)

/-- `buildNameIndex` (`src/name-index.ts` 3-32). -/
def buildNameIndex (cities : List GeobedCity) : List (String × List Nat) :=
  buildNameIndexAux 0 cities []

/-- City index `i` is recorded under key `k` in the association list. -/
def HasIdx (idx : List (String × List Nat)) (k : String) (i : Nat) : Prop :=
  ∃ p ∈ idx, p.1 = k ∧ i ∈ p.2

lemma toNat_ofNat_valid {n : Nat} (h : n < 55296) : (Char.ofNat n).toNat = n := by
  simp [Char.ofNat, Nat.isValidChar, h, Char.ofNatAux, Char.toNat,
    UInt32.toNat, UInt32.ofNat']

lemma lowerChar_idem (c : Char) : lowerChar (lowerChar c) = lowerChar c := by
  unfold lowerChar
  by_cases h : 65 ≤ c.toNat ∧ c.toNat ≤ 90
  · rw [if_pos h]
    have hval : (Char.ofNat (c.toNat + 32)).toNat = c.toNat + 32 :=
      toNat_ofNat_valid (by omega)
    rw [if_neg]
    rw [hval]
    omega
  · rw [if_neg h, if_neg h]

lemma jsToLower_idem (s : String) : jsToLower (jsToLower s) = jsToLower s := by
  unfold jsToLower
  congr 1
  rw [List.map_map]
  exact List.map_congr_left fun c _ => lowerChar_idem c

lemma cityKeys_lowered {c : GeobedCity} {k : String} (h : k ∈ cityKeys c) :
    jsToLower k = k := by
  unfold cityKeys at h
  rcases List.mem_append.mp h with h1 | h2
  · split at h1
    · rcases List.mem_singleton.mp h1 with rfl
      exact jsToLower_idem _
    · simp at h1
  · split at h2
    · rcases List.mem_filterMap.mp h2 with ⟨alt, _, halt⟩
      simp only at halt
      split at halt
      · cases halt
      · rcases Option.some_inj.mp halt with rfl
        exact jsToLower_idem _
    · simp at h2

lemma hasIdx_insert {idx : List (String × List Nat)} {key : String} {j : Nat}
    {k : String} {i : Nat} :
    HasIdx (nameIndexInsert idx key j) k i
      ↔ HasIdx idx k i ∨ (k = key ∧ i = j) := by
  unfold nameIndexInsert
  by_cases hany : idx.any fun e => decide (e.1 = key)
  · rw [if_pos hany]
    constructor
    · rintro ⟨p', hp', hk, hi⟩
      rcases List.mem_map.mp hp' with ⟨p, hp, rfl⟩
      by_cases hpk : p.1 = key
      · rw [if_pos hpk] at hk hi
        simp only at hk hi
        rcases List.mem_append.mp hi with hi' | hi'
        · exact Or.inl ⟨p, hp, hk, hi'⟩
        · exact Or.inr ⟨hk ▸ hpk ▸ rfl, List.mem_singleton.mp hi'⟩
      · rw [if_neg hpk] at hk hi
        exact Or.inl ⟨p, hp, hk, hi⟩
    · rintro (⟨p, hp, hk, hi⟩ | ⟨rfl, rfl⟩)
      · refine ⟨if p.1 = key then (p.1, p.2 ++ [j]) else p,
          List.mem_map.mpr ⟨p, hp, rfl⟩, ?_⟩
        by_cases hpk : p.1 = key
        · rw [if_pos hpk]
          exact ⟨hk, List.mem_append_left _ hi⟩
        · rw [if_neg hpk]
          exact ⟨hk, hi⟩
      · rcases List.any_eq_true.mp hany with ⟨p, hp, hpk⟩
        have hpk' : p.1 = k := of_decide_eq_true hpk
        refine ⟨(p.1, p.2 ++ [i]), List.mem_map.mpr ⟨p, hp, by rw [if_pos hpk']⟩,
          hpk', List.mem_append_right _ (List.mem_singleton.mpr rfl)⟩
  · rw [if_neg hany]
    constructor
    · rintro ⟨p, hp, hk, hi⟩
      rcases List.mem_append.mp hp with hp' | hp'
      · exact Or.inl ⟨p, hp', hk, hi⟩
      · rcases List.mem_singleton.mp hp' with rfl
        exact Or.inr ⟨hk.symm ▸ rfl, List.mem_singleton.mp hi⟩
    · rintro (⟨p, hp, hk, hi⟩ | ⟨rfl, rfl⟩)
      · exact ⟨p, List.mem_append_left _ hp, hk, hi⟩
      · exact ⟨(k, [i]), List.mem_append_right _ (List.mem_singleton.mpr rfl),
          rfl, List.mem_singleton.mpr rfl⟩

lemma hasIdx_insert_keys {j : Nat} :
    ∀ (ks : List String) (idx : List (String × List Nat)) {k : String} {i : Nat},
    HasIdx (ks.foldl (fun idx k => nameIndexInsert idx k j) idx) k i
      ↔ HasIdx idx k i ∨ (i = j ∧ k ∈ ks) := by
  intro ks
  induction ks with
  | nil => intro idx k i; simp
  | cons x xs ih =>
    intro idx k i
    simp only [List.foldl_cons]
    rw [ih]
    rw [hasIdx_insert]
    constructor
    · rintro ((h | ⟨rfl, rfl⟩) | ⟨rfl, hk⟩)
      · exact Or.inl h
      · exact Or.inr ⟨rfl, List.mem_cons_self _ _⟩
      · exact Or.inr ⟨rfl, List.mem_cons_of_mem _ hk⟩
    · rintro (h | ⟨rfl, hk⟩)
      · exact Or.inl (Or.inl h)
      · rcases List.mem_cons.mp hk with rfl | hk'
        · exact Or.inl (Or.inr ⟨rfl, rfl⟩)
        · exact Or.inr ⟨rfl, hk'⟩

lemma hasIdx_buildAux :
    ∀ (cs : List GeobedCity) (m : Nat) (idx : List (String × List Nat))
      {k : String} {i : Nat},
    HasIdx (buildNameIndexAux m cs idx) k i
      ↔ HasIdx idx k i
        ∨ ∃ j, j < cs.length ∧ i = m + j ∧ k ∈ cityKeys (cityAt cs j) := by
  intro cs
  induction cs with
  | nil =>
    intro m idx k i
    simp [buildNameIndexAux]
  | cons c cs' ih =>
    intro m idx k i
    simp only [buildNameIndexAux]
    rw [ih]
    unfold insertCityKeys
    rw [hasIdx_insert_keys]
    constructor
    · rintro ((h | ⟨rfl, hk⟩) | ⟨j, hj, rfl, hk⟩)
      · exact Or.inl h
      · exact Or.inr ⟨0, by simp, by omega, by simpa [cityAt] using hk⟩
      · refine Or.inr ⟨j + 1, by simp; omega, by omega, ?_⟩
        simpa [cityAt] using hk
    · rintro (h | ⟨j, hj, rfl, hk⟩)
      · exact Or.inl (Or.inl h)
      · rcases j with _ | j'
        · exact Or.inl (Or.inr ⟨by omega, by simpa [cityAt] using hk⟩)
        · refine Or.inr ⟨j', by simp at hj; omega, by omega, ?_⟩
          simpa [cityAt] using hk

lemma insert_keys_lowered {idx : List (String × List Nat)} {key : String}
    {j : Nat} (hidx : ∀ p ∈ idx, jsToLower p.1 = p.1)
    (hkey : jsToLower key = key) :
    ∀ p ∈ nameIndexInsert idx key j, jsToLower p.1 = p.1 := by
  intro p hp
  unfold nameIndexInsert at hp
  split at hp
  · rcases List.mem_map.mp hp with ⟨q, hq, rfl⟩
    by_cases hqk : q.1 = key
    · rw [if_pos hqk]
      exact hidx q hq
    · rw [if_neg hqk]
      exact hidx q hq
  · rcases List.mem_append.mp hp with hp' | hp'
    · exact hidx p hp'
    · rcases List.mem_singleton.mp hp' with rfl
      exact hkey

lemma buildAux_keys_lowered :
    ∀ (cs : List GeobedCity) (m : Nat) (idx : List (String × List Nat)),
    (∀ p ∈ idx, jsToLower p.1 = p.1) →
    ∀ p ∈ buildNameIndexAux m cs idx, jsToLower p.1 = p.1 := by
  intro cs
  induction cs with
  | nil => intro m idx h; exact h
  | cons c cs' ih =>
    intro m idx h
    apply ih
    unfold insertCityKeys
    have : ∀ (ks : List String), (∀ k ∈ ks, jsToLower k = k) →
        ∀ (idx : List (String × List Nat)), (∀ p ∈ idx, jsToLower p.1 = p.1) →
        ∀ p ∈ ks.foldl (fun idx k => nameIndexInsert idx k m) idx,
          jsToLower p.1 = p.1 := by
      intro ks
      induction ks with
      | nil => intro _ idx h'; exact h'
      | cons x xs ihk =>
        intro hks idx h'
        simp only [List.foldl_cons]
        apply ihk (fun k hk => hks k (List.mem_cons_of_mem _ hk))
        exact insert_keys_lowered h' (hks x (List.mem_cons_self _ _))
    exact this (cityKeys c) (fun k hk => cityKeys_lowered hk) idx h

/-- Claim C8: the name index built from any corpus has keys equal to their
own lowercasing and stores only in-range city indices; moreover a city index
`i` is recorded under key `k` exactly when `k` is one of the keys the city
contributes: its lowercased primary name (only when non-empty), and, when the
alt blob is non-empty, the lowercasing of each trimmed non-empty
comma-separated segment of `city_alt`. -/
theorem claim_c8_name_index (cities : List GeobedCity) :
    (∀ p ∈ buildNameIndex cities,
      jsToLower p.1 = p.1 ∧ ∀ i ∈ p.2, i < cities.length)
    ∧ ∀ (k : String) (i : Nat),
        (∃ p ∈ buildNameIndex cities, p.1 = k ∧ i ∈ p.2)
          ↔ (i < cities.length ∧ k ∈ cityKeys (cityAt cities i)) := by
  have hchar : ∀ (k : String) (i : Nat),
      HasIdx (buildNameIndex cities) k i
        ↔ (i < cities.length ∧ k ∈ cityKeys (cityAt cities i)) := by
    intro k i
    unfold buildNameIndex
    rw [hasIdx_buildAux]
    constructor
    · rintro (⟨p, hp, _⟩ | ⟨j, hj, hij, hk⟩)
      · simp at hp
      · refine ⟨by omega, ?_⟩
        have : i = j := by omega
        subst this
        exact hk
    · rintro ⟨hi, hk⟩
      exact Or.inr ⟨i, hi, by omega, hk⟩
  constructor
  · intro p hp
    constructor
    · exact buildAux_keys_lowered cities 0 [] (by simp) p hp
    · intro i hi
      exact ((hchar p.1 i).mp ⟨p, hp, rfl, hi⟩).1
  · exact hchar

/-! ## Fuzzy scorer (`GeoBed.fuzzyMatchLocation`, `dist/geobed.js` 282-436) -/

/-- JavaScript `ns.replace(/,$/g, '')`: removes one trailing comma. -/
def trimTrailingComma (s : String) : String :=
  match s.data.getLast? with
  | some ',' => ⟨s.data.dropLast⟩
  | _ => s

/-- Is the needle an initial run of the haystack? -/
def charsLeading : List Char → List Char → Bool
  | [], _ => true
  | _ :: _, [] => false
  | p :: ps, h :: hs => p == h && charsLeading ps hs

/-- Does the haystack contain the needle as a contiguous run? -/
def charsContain : List Char → List Char → Bool
  | [], needle => needle.isEmpty
  | h :: hs, needle => charsLeading needle (h :: hs) || charsContain hs needle

/-- JavaScript `s.includes(t)`. -/
def strIncludes (s t : String) : Bool :=
  charsContain s.data t.data

/-- Modelled from the spec: `edit_distance(a, b) → int` is specified as a
black-box Levenshtein distance (the `fastest-levenshtein` npm package is not
part of this repository); implemented here as the textbook Levenshtein
recurrence, driven by a fuel counter so that the recursion is structural
(every recursive call shrinks the combined length by at least one, so any
fuel of at least `a.length + b.length` yields the distance). -/
def levFuel : Nat → List Char → List Char → Nat
  | 0, a, b => a.length + b.length
  | _ + 1, [], b => b.length
  | _ + 1, a :: as, [] => (a :: as).length
  | fuel + 1, a :: as, b :: bs =>
    if a = b then levFuel fuel as bs
    else 1 + min (levFuel fuel as (b :: bs)) (min (levFuel fuel (a :: as) bs)
      (levFuel fuel as bs))

/-- The Levenshtein distance on character lists. -/
def levChars (a b : List Char) : Nat :=
  levFuel (a.length + b.length) a b

/-- `fuzzyMatch` from `src/fuzzy.ts`. -/
def fuzzyMatch (query cand : String) (maxDist : Nat) : Bool :=
  if maxDist = 0 then jsToLower query == jsToLower cand
  else decide (levChars (jsToLower query).data (jsToLower cand).data ≤ maxDist)

/-- The abbreviation bonuses (R1/R2, `dist/geobed.js` 341-349). -/
def scoreAbbrev (cl rl : List String) (abbrevSlice : List String)
    (v : GeobedCity) : Nat :=
  abbrevSlice.foldl
    (fun sc av =>
      let lowerAv := jsToLower av
      let sc := if strLength av = 2
          ∧ jsToLower (internerGet rl v.regionIdx) = lowerAv then sc + 5 else sc
      if strLength av = 2
          ∧ jsToLower (internerGet cl v.countryIdx) = lowerAv then sc + 3
      else sc)
    0

/-- The alt-name flags (`dist/geobed.js` 356-370): whether some trimmed
non-empty alt equals the query exactly, and case-insensitively.  The embedded
fold keeps scanning where the code breaks once both flags are set; the
resulting flags are identical. -/
def altFlags (n : String) (cityAlt : String) : Bool × Bool :=
  (splitOnComma cityAlt).foldl
    (fun fl rawAlt =>
      let altV := strTrim rawAlt
      if strLength altV = 0 then fl
      else (fl.1 || altV == n, fl.2 || jsToLower altV == jsToLower n))
    (false, false)

/-- The alt-name bonuses (R5/R6, `dist/geobed.js` 356-375). -/
def scoreAlt (n : String) (v : GeobedCity) : Nat :=
  if v.cityAlt ≠ "" then
    let fl := altFlags n v.cityAlt
    (if fl.2 then 3 else 0) + (if fl.1 then 5 else 0)
  else 0

/-- The per-token fuzzy bonus of the R8 branch (`dist/geobed.js` 381-386). -/
def fuzzyTokenScore (nSlice : List String) (vCity : String) (d : Nat) : Nat :=
  nSlice.foldl
    (fun sc ns =>
      let trimmed := trimTrailingComma ns
      if 2 < strLength trimmed ∧ fuzzyMatch trimmed vCity d = true then sc + 5
      else sc)
    0

/-- The exact-name / fuzzy branch (R7/R8, `dist/geobed.js` 376-387): the +7
exact bonus, ELSE the fuzzy per-token bonus. -/
def scoreExact (strip : String → String) (n : String) (nSlice : List String)
    (d : Nat) (vCity : String) : Nat :=
  if jsToLower n = jsToLower vCity ∨ jsToLower n = strip (jsToLower vCity) then 7
  else if 0 < d then fuzzyTokenScore nSlice vCity d
  else 0

/-- The per-token containment/equality bonuses (R9/R10,
`dist/geobed.js` 388-398). -/
def scoreTokens (strip : String → String) (nSlice : List String)
    (vCity : String) : Nat :=
  nSlice.foldl
    (fun sc ns =>
      let trimmed := trimTrailingComma ns
      let cityLower := jsToLower vCity
      let trimmedLower := jsToLower trimmed
      let sc := if strIncludes cityLower trimmedLower = true
          ∨ strIncludes (strip cityLower) trimmedLower = true then sc + 2
        else sc
      if cityLower = trimmedLower ∨ strip cityLower = trimmedLower then sc + 1
      else sc)
    0

/-- The full per-candidate score (`dist/geobed.js` 340-398).  The code
accumulates the bonuses sequentially into `score`; since every bonus is a
plain addition, the total is the sum of the component contributions.
`stripDiacritics` (Unicode NFD normalization) is abstracted as the `strip`
parameter; it is the identity on the ASCII inputs used here. -/
def scoreCity (strip : String → String) (cl rl : List String)
    (n nCo nSt : String) (abbrevSlice nSlice : List String) (d : Nat)
    (v : GeobedCity) : Nat :=
  scoreAbbrev cl rl abbrevSlice v
    + (if nCo ≠ "" ∧ nCo = internerGet cl v.countryIdx then 4 else 0)
    + (if nSt ≠ "" ∧ nSt = internerGet rl v.regionIdx then 4 else 0)
    + scoreAlt n v
    + scoreExact strip n nSlice d v.city
    + scoreTokens strip nSlice v.city

/-- The fast-path test inside the candidate loop (`dist/geobed.js` 335-339). -/
def fastPathHit (rl : List String) (n nSt : String) (v : GeobedCity) : Bool :=
  decide (nSt ≠ "" ∧ jsToLower n = jsToLower v.city
    ∧ jsToLower nSt = jsToLower (internerGet rl v.regionIdx))

/-- The candidate loop (`dist/geobed.js` 330-402): either an early fast-path
return of a candidate city, or the accumulated `bestMatchingKeys` map
(modelled as an association list in insertion order; only strictly positive
scores are recorded). -/
def scoreLoop (strip : String → String) (cl rl : List String)
    (n nCo nSt : String) (ab ns : List String) (d : Nat)
    (cities : List GeobedCity) :
    List Nat → List (Nat × Nat) → Sum GeobedCity (List (Nat × Nat))
  | [], acc => .inr acc
  | i :: rest, acc =>
    let v := cityAt cities i
    if fastPathHit rl n nSt v then .inl v
    else
      let sc := scoreCity strip cl rl n nCo nSt ab ns d v
      scoreLoop strip cl rl n nCo nSt ab ns d cities rest
        (if 0 < sc then acc ++ [(i, sc)] else acc)

/-- First phase of the population adjustment (`dist/geobed.js` 408-411):
`+1` for every entry whose city has population at least 1000. -/
def boostPop (cities : List GeobedCity) (es : List (Nat × Nat)) :
    List (Nat × Nat) :=
  es.map fun e =>
    if 1000 ≤ (cityAt cities e.1).population then (e.1, e.2 + 1) else e

/-- The `hp`/`hpk` computation of the same loop (412-415): the key of the
strictly largest population seen, starting from `(0, 0)`. -/
def hpkOf (cities : List GeobedCity) (es : List (Nat × Nat)) : Nat :=
  (es.foldl
    (fun hp e =>
      if hp.1 < (cityAt cities e.1).population
        then ((cityAt cities e.1).population, e.1) else hp)
    (0, 0)).2

/-- `bestMatchingKeys.get(k)` as an association-list lookup. -/
def lookupScore (es : List (Nat × Nat)) (k : Nat) : Option Nat :=
  (es.find? fun e => e.1 == k).map (·.2)

/-- `bestMatchingKeys.set(k, v)`: update an existing key in place, append a
fresh one. -/
def mapSet (es : List (Nat × Nat)) (k v : Nat) : List (Nat × Nat) :=
  if es.any fun e => e.1 == k then
    es.map fun e => if e.1 = k then (k, v) else e
  else es ++ [(k, v)]

/-- The population adjustment applied when no country was extracted
(`dist/geobed.js` 405-420).  `this.cities[hpk] &&` is the JS truthiness
test that `hpk` is in range; `(get(hpk) || 0)` is modelled with `getD 0`
(the recorded scores are strictly positive, so `|| 0` and `getD 0` agree). -/
def adjustScores (cities : List GeobedCity) (es : List (Nat × Nat)) :
    List (Nat × Nat) :=
  let es2 := boostPop cities es
  let hpk := hpkOf cities es
  if hpk < cities.length ∧ 0 < (cityAt cities hpk).population then
    mapSet es2 hpk ((lookupScore es2 hpk).getD 0 + 1)
  else es2

/-- The selection loop (`dist/geobed.js` 421-431), carrying the running
maximum score `m` (a `Nat`) and the running best key (`-1` until a positive
score is seen); both `if`s of the loop body read the already-updated pair. -/
def selLoop (cities : List GeobedCity) :
    List (Nat × Nat) → Nat × Int → Nat × Int
  | [], mb => mb
  | (k, v) :: rest, (m, best) =>
    let mb2 : Nat × Int := if m < v then (v, (k : Int)) else (m, best)
    let best2 : Int :=
      if v = mb2.1 ∧ 0 ≤ mb2.2
          ∧ (cityAt cities mb2.2.toNat).population
              < (cityAt cities k).population
        then (k : Int) else mb2.2
    selLoop cities rest (mb2.1, best2)

/-- Everything of `fuzzyMatchLocation` after the candidate loop
(`dist/geobed.js` 403-435): empty map yields the empty record, the
population adjustment runs only when no country was extracted, then the
selection loop and the final range check. -/
def fuzzySelect (cities : List GeobedCity) (nCo : String)
    (entries : List (Nat × Nat)) : GeobedCity :=
  if entries = [] then emptyCity
  else
    let es := if nCo = "" then adjustScores cities entries else entries
    let mb := selLoop cities es (0, -1)
    if 0 ≤ mb.2 ∧ mb.2.toNat < cities.length then cityAt cities mb.2.toNat
    else emptyCity

/-- `fuzzyMatchLocation` from the point where the candidate set has been
gathered from the name index (`dist/geobed.js` 327-435): empty candidate set
yields the empty record; otherwise score every candidate (with the fast-path
early return) and select. -/
def fuzzyMatchCore (strip : String → String) (cl rl : List String)
    (n nCo nSt : String) (ab ns : List String) (d : Nat)
    (cities : List GeobedCity) (candidateSet : List Nat) : GeobedCity :=
  if candidateSet = [] then emptyCity
  else
    match scoreLoop strip cl rl n nCo nSt ab ns d cities candidateSet [] with
    | .inl v => v
    | .inr entries => fuzzySelect cities nCo entries

lemma foldl_ge_start {α : Type} (f : Nat → α → Nat) (hf : ∀ sc a, sc ≤ f sc a) :
    ∀ (l : List α) (acc : Nat), acc ≤ l.foldl f acc := by
  intro l
  induction l with
  | nil => intro acc; exact le_refl _
  | cons a as ih => intro acc; exact le_trans (hf acc a) (ih (f acc a))

lemma foldl_zero_or_two {α : Type} (f : Nat → α → Nat)
    (hf : ∀ sc a, f sc a = sc ∨ sc + 2 ≤ f sc a) :
    ∀ (l : List α) (acc : Nat), l.foldl f acc = acc ∨ acc + 2 ≤ l.foldl f acc := by
  have hmono : ∀ sc a, sc ≤ f sc a := by
    intro sc a
    rcases hf sc a with h | h
    · omega
    · omega
  intro l
  induction l with
  | nil => intro acc; exact Or.inl rfl
  | cons a as ih =>
    intro acc
    simp only [List.foldl_cons]
    rcases hf acc a with h | h
    · rw [h]; exact ih acc
    · right
      exact le_trans h (foldl_ge_start f hmono as (f acc a))

lemma charsLeading_refl : ∀ (l : List Char), charsLeading l l = true := by
  intro l
  induction l with
  | nil => rfl
  | cons c cs ih => simp [charsLeading, ih]

lemma strIncludes_refl (s : String) : strIncludes s s = true := by
  unfold strIncludes
  rcases s with ⟨l⟩
  cases l with
  | nil => rfl
  | cons c cs => simp [charsContain, charsLeading_refl]

lemma scoreAbbrev_zero_or_two (cl rl : List String) (ab : List String)
    (v : GeobedCity) : scoreAbbrev cl rl ab v = 0 ∨ 2 ≤ scoreAbbrev cl rl ab v := by
  unfold scoreAbbrev
  apply foldl_zero_or_two
  intro sc a
  dsimp only
  split_ifs <;> omega

lemma scoreAlt_zero_or_two (n : String) (v : GeobedCity) :
    scoreAlt n v = 0 ∨ 2 ≤ scoreAlt n v := by
  unfold scoreAlt
  split
  · cases h1 : (altFlags n v.cityAlt).1 <;> cases h2 : (altFlags n v.cityAlt).2 <;>
      simp [h1, h2]
  · exact Or.inl rfl

lemma fuzzyTokenScore_zero_or_two (ns : List String) (vCity : String) (d : Nat) :
    fuzzyTokenScore ns vCity d = 0 ∨ 2 ≤ fuzzyTokenScore ns vCity d := by
  unfold fuzzyTokenScore
  apply foldl_zero_or_two
  intro sc a
  dsimp only
  split_ifs <;> omega

lemma scoreExact_zero_or_two (strip : String → String) (n : String)
    (ns : List String) (d : Nat) (vCity : String) :
    scoreExact strip n ns d vCity = 0 ∨ 2 ≤ scoreExact strip n ns d vCity := by
  unfold scoreExact
  split
  · right; omega
  · split
    · exact fuzzyTokenScore_zero_or_two ns vCity d
    · exact Or.inl rfl

lemma scoreTokens_zero_or_two (strip : String → String) (ns : List String)
    (vCity : String) :
    scoreTokens strip ns vCity = 0 ∨ 2 ≤ scoreTokens strip ns vCity := by
  unfold scoreTokens
  apply foldl_zero_or_two
  intro sc a
  by_cases h9 : strIncludes (jsToLower vCity) (jsToLower (trimTrailingComma a)) = true
      ∨ strIncludes (strip (jsToLower vCity)) (jsToLower (trimTrailingComma a)) = true
  · simp only [if_pos h9]
    split
    · omega
    · omega
  · simp only [if_neg h9]
    rw [if_neg]
    · exact Or.inl rfl
    · intro h10
      apply h9
      rcases h10 with h | h
      · exact Or.inl (by rw [h]; exact strIncludes_refl _)
      · exact Or.inr (by rw [h]; exact strIncludes_refl _)

/-- Every strictly positive score produced by the scoring table is at
least 2: the only +1 bonus (R10, token equality) always fires together with
the +2 containment bonus (R9). -/
lemma scoreCity_two (strip : String → String) (cl rl : List String)
    (n nCo nSt : String) (ab ns : List String) (d : Nat) (v : GeobedCity)
    (h : 0 < scoreCity strip cl rl n nCo nSt ab ns d v) :
    2 ≤ scoreCity strip cl rl n nCo nSt ab ns d v := by
  unfold scoreCity at h ⊢
  rcases scoreAbbrev_zero_or_two cl rl ab v with h1 | h1 <;>
    rcases scoreAlt_zero_or_two n v with h4 | h4 <;>
    rcases scoreExact_zero_or_two strip n ns d v.city with h5 | h5 <;>
    rcases scoreTokens_zero_or_two strip ns v.city with h6 | h6 <;>
    split_ifs at h ⊢ <;> omega

lemma scoreLoop_inr (strip : String → String) (cl rl : List String)
    (n nCo nSt : String) (ab ns : List String) (d : Nat)
    (cities : List GeobedCity) :
    ∀ (is : List Nat) (acc entries : List (Nat × Nat)),
    scoreLoop strip cl rl n nCo nSt ab ns d cities is acc = .inr entries →
    ∀ e ∈ entries, e ∈ acc
      ∨ (e.1 ∈ is
          ∧ e.2 = scoreCity strip cl rl n nCo nSt ab ns d (cityAt cities e.1)
          ∧ 0 < e.2) := by
  intro is
  induction is with
  | nil =>
    intro acc entries h e he
    simp only [scoreLoop] at h
    cases h
    exact Or.inl he
  | cons i rest ih =>
    intro acc entries h e he
    simp only [scoreLoop] at h
    split at h
    · cases h
    · rcases ih _ entries h e he with hacc | ⟨hm, hs, hp⟩
      · split at hacc
        · rcases List.mem_append.mp hacc with h' | h'
          · exact Or.inl h'
          · rcases List.mem_singleton.mp h' with rfl
            exact Or.inr ⟨List.mem_cons_self _ _, rfl, by assumption⟩
        · exact Or.inl hacc
      · exact Or.inr ⟨List.mem_cons_of_mem _ hm, hs, hp⟩

lemma selLoop_go (cities : List GeobedCity) :
    ∀ (es : List (Nat × Nat)) (k0 s0 : Nat),
    (∀ e ∈ es, 1 ≤ e.2) → 1 ≤ s0 →
    ∃ f ∈ (k0, s0) :: es,
      selLoop cities es (s0, (k0 : Int)) = (f.2, (f.1 : Int))
      ∧ (∀ e ∈ (k0, s0) :: es, e.2 ≤ f.2)
      ∧ (∀ e ∈ (k0, s0) :: es, e.2 = f.2 →
          (cityAt cities e.1).population ≤ (cityAt cities f.1).population) := by
  intro es
  induction es with
  | nil =>
    intro k0 s0 _ _
    refine ⟨(k0, s0), List.mem_singleton.mpr rfl, rfl, ?_, ?_⟩
    · intro e he; rcases List.mem_singleton.mp he with rfl; exact le_refl _
    · intro e he _; rcases List.mem_singleton.mp he with rfl; exact le_refl _
  | cons kv rest ih =>
    rcases kv with ⟨k, v⟩
    intro k0 s0 hge1 hs0
    have hv1 : 1 ≤ v := hge1 (k, v) (List.mem_cons_self _ _)
    have hrest : ∀ e ∈ rest, 1 ≤ e.2 :=
      fun e he => hge1 e (List.mem_cons_of_mem _ he)
    by_cases hlt : s0 < v
    · have hstep : selLoop cities ((k, v) :: rest) (s0, (k0 : Int))
          = selLoop cities rest (v, (k : Int)) := by
        simp only [selLoop, if_pos hlt]
        rw [if_neg]
        rintro ⟨-, -, hpop⟩
        simp only [Int.toNat_natCast] at hpop
        exact lt_irrefl _ hpop
      rcases ih k v hrest hv1 with ⟨f, hf, heq, hmax, hpop⟩
      refine ⟨f, ?_, by rw [hstep]; exact heq, ?_, ?_⟩
      · rcases List.mem_cons.mp hf with rfl | hf'
        · exact List.mem_cons_of_mem _ (List.mem_cons_self _ _)
        · exact List.mem_cons_of_mem _ (List.mem_cons_of_mem _ hf')
      · intro e he
        rcases List.mem_cons.mp he with rfl | he'
        · have : v ≤ f.2 := hmax (k, v) (List.mem_cons_self _ _)
          omega
        · exact hmax e he'
      · intro e he hefs
        rcases List.mem_cons.mp he with rfl | he'
        · exfalso
          have : v ≤ f.2 := hmax (k, v) (List.mem_cons_self _ _)
          simp only at hefs
          omega
        · exact hpop e he' hefs
    · by_cases hrep : v = s0
          ∧ (cityAt cities k0).population < (cityAt cities k).population
      · have hstep : selLoop cities ((k, v) :: rest) (s0, (k0 : Int))
            = selLoop cities rest (s0, (k : Int)) := by
          simp only [selLoop, if_neg hlt]
          rw [if_pos]
          refine ⟨hrep.1, by positivity, ?_⟩
          simp only [Int.toNat_natCast]
          exact hrep.2
        rcases ih k s0 hrest hs0 with ⟨f, hf, heq, hmax, hpop⟩
        have hks : ((k : Nat), s0) = (k, v) := by rw [hrep.1]
        refine ⟨f, ?_, by rw [hstep]; exact heq, ?_, ?_⟩
        · rcases List.mem_cons.mp hf with rfl | hf'
          · rw [hks]
            exact List.mem_cons_of_mem _ (List.mem_cons_self _ _)
          · exact List.mem_cons_of_mem _ (List.mem_cons_of_mem _ hf')
        · intro e he
          rcases List.mem_cons.mp he with rfl | he'
          · have : s0 ≤ f.2 := hmax (k, s0) (List.mem_cons_self _ _)
            exact this
          · rcases List.mem_cons.mp he' with rfl | he''
            · have : s0 ≤ f.2 := hmax (k, s0) (List.mem_cons_self _ _)
              simp only
              omega
            · exact hmax e (List.mem_cons_of_mem _ he'')
        · intro e he hefs
          rcases List.mem_cons.mp he with rfl | he'
          · have hk : (cityAt cities k).population
                ≤ (cityAt cities f.1).population := by
              apply hpop (k, s0) (List.mem_cons_self _ _)
              simpa using hefs
            exact le_trans (le_of_lt hrep.2) hk
          · rcases List.mem_cons.mp he' with rfl | he''
            · apply hpop (k, s0) (List.mem_cons_self _ _)
              simp only at hefs ⊢
              omega
            · exact hpop e (List.mem_cons_of_mem _ he'') hefs
      · have hstep : selLoop cities ((k, v) :: rest) (s0, (k0 : Int))
            = selLoop cities rest (s0, (k0 : Int)) := by
          simp only [selLoop, if_neg hlt]
          rw [if_neg]
          rintro ⟨h1, -, h3⟩
          simp only [Int.toNat_natCast] at h3
          exact hrep ⟨h1, h3⟩
        rcases ih k0 s0 hrest hs0 with ⟨f, hf, heq, hmax, hpop⟩
        refine ⟨f, ?_, by rw [hstep]; exact heq, ?_, ?_⟩
        · rcases List.mem_cons.mp hf with rfl | hf'
          · exact List.mem_cons_self _ _
          · exact List.mem_cons_of_mem _ (List.mem_cons_of_mem _ hf')
        · intro e he
          rcases List.mem_cons.mp he with rfl | he'
          · exact hmax (k0, s0) (List.mem_cons_self _ _)
          · rcases List.mem_cons.mp he' with rfl | he''
            · have : s0 ≤ f.2 := hmax (k0, s0) (List.mem_cons_self _ _)
              simp only
              omega
            · exact hmax e (List.mem_cons_of_mem _ he'')
        · intro e he hefs
          rcases List.mem_cons.mp he with rfl | he'
          · exact hpop (k0, s0) (List.mem_cons_self _ _) hefs
          · rcases List.mem_cons.mp he' with rfl | he''
            · simp only at hefs
              have hs0f : s0 ≤ f.2 := hmax (k0, s0) (List.mem_cons_self _ _)
              have hvs0 : v = s0 := by omega
              have hkk0 : (cityAt cities k).population
                  ≤ (cityAt cities k0).population := by
                by_contra hcon
                exact hrep ⟨hvs0, by omega⟩
              have : (cityAt cities k0).population
                  ≤ (cityAt cities f.1).population := by
                apply hpop (k0, s0) (List.mem_cons_self _ _)
                simp only
                omega
              exact le_trans hkk0 this
            · exact hpop e (List.mem_cons_of_mem _ he'') hefs

lemma selLoop_start (cities : List GeobedCity) (es : List (Nat × Nat))
    (hne : es ≠ []) (hge1 : ∀ e ∈ es, 1 ≤ e.2) :
    ∃ f ∈ es, selLoop cities es (0, -1) = (f.2, (f.1 : Int))
      ∧ (∀ e ∈ es, e.2 ≤ f.2)
      ∧ (∀ e ∈ es, e.2 = f.2 →
          (cityAt cities e.1).population ≤ (cityAt cities f.1).population) := by
  rcases es with _ | ⟨⟨k, v⟩, rest⟩
  · exact absurd rfl hne
  have hv1 : 1 ≤ v := hge1 (k, v) (List.mem_cons_self _ _)
  have hrest : ∀ e ∈ rest, 1 ≤ e.2 :=
    fun e he => hge1 e (List.mem_cons_of_mem _ he)
  have hstep : selLoop cities ((k, v) :: rest) (0, -1)
      = selLoop cities rest (v, (k : Int)) := by
    simp only [selLoop, if_pos (by omega : 0 < v)]
    rw [if_neg]
    rintro ⟨-, -, hpop⟩
    simp only [Int.toNat_natCast] at hpop
    exact lt_irrefl _ hpop
  rcases selLoop_go cities rest k v hrest hv1 with ⟨f, hf, heq, hmax, hpop⟩
  exact ⟨f, hf, by rw [hstep]; exact heq, hmax, hpop⟩

lemma boostPop_cases {cities : List GeobedCity} {es : List (Nat × Nat)} :
    ∀ e ∈ boostPop cities es, ∃ e0 ∈ es, e.1 = e0.1 ∧ e0.2 ≤ e.2 := by
  intro e he
  rcases List.mem_map.mp he with ⟨e0, he0, rfl⟩
  split
  · exact ⟨e0, he0, rfl, by omega⟩
  · exact ⟨e0, he0, rfl, le_refl _⟩

lemma boostPop_exists {cities : List GeobedCity} {es : List (Nat × Nat)}
    {e0 : Nat × Nat} (h : e0 ∈ es) :
    ∃ e ∈ boostPop cities es, e.1 = e0.1 ∧ e0.2 ≤ e.2 := by
  refine ⟨if 1000 ≤ (cityAt cities e0.1).population then (e0.1, e0.2 + 1) else e0,
    List.mem_map.mpr ⟨e0, h, rfl⟩, ?_⟩
  split
  · exact ⟨rfl, by omega⟩
  · exact ⟨rfl, le_refl _⟩

lemma mapSet_sub {es : List (Nat × Nat)} {k v : Nat} :
    ∀ e ∈ mapSet es k v, e ∈ es ∨ e = (k, v) := by
  intro e he
  unfold mapSet at he
  split at he
  · rcases List.mem_map.mp he with ⟨e0, he0, rfl⟩
    split
    · exact Or.inr rfl
    · exact Or.inl he0
  · rcases List.mem_append.mp he with h' | h'
    · exact Or.inl h'
    · exact Or.inr (List.mem_singleton.mp h')

lemma mapSet_mem_of_ne {es : List (Nat × Nat)} {k v : Nat} {e0 : Nat × Nat}
    (h : e0 ∈ es) (hne : e0.1 ≠ k) : e0 ∈ mapSet es k v := by
  unfold mapSet
  split
  · refine List.mem_map.mpr ⟨e0, h, ?_⟩
    rw [if_neg hne]
  · exact List.mem_append_left _ h

lemma mapSet_mem_self {es : List (Nat × Nat)} {k v : Nat}
    (hany : es.any fun e => e.1 == k) : (k, v) ∈ mapSet es k v := by
  unfold mapSet
  rw [if_pos hany]
  rcases List.any_eq_true.mp hany with ⟨e, he, hek⟩
  have hek' : e.1 = k := by simpa using hek
  exact List.mem_map.mpr ⟨e, he, by rw [if_pos hek']⟩

lemma lookupScore_present {es : List (Nat × Nat)} {k : Nat}
    (hany : es.any fun e => e.1 == k) (h1 : ∀ e ∈ es, 1 ≤ e.2) :
    1 ≤ (lookupScore es k).getD 0 := by
  rcases List.any_eq_true.mp hany with ⟨e, he, hek⟩
  have hsome : (es.find? fun e => e.1 == k).isSome := by
    rw [List.find?_isSome]
    exact ⟨e, he, hek⟩
  rcases Option.isSome_iff_exists.mp hsome with ⟨e', he'⟩
  have hmem : e' ∈ es := List.mem_of_find?_eq_some he'
  simp only [lookupScore, he', Option.map_some, Option.getD_some]
  exact h1 e' hmem

lemma adjust_ge1 {cities : List GeobedCity} {es : List (Nat × Nat)}
    (h1 : ∀ e ∈ es, 1 ≤ e.2) :
    ∀ e ∈ adjustScores cities es, 1 ≤ e.2 := by
  intro e he
  unfold adjustScores at he
  dsimp only at he
  have hboost : ∀ e ∈ boostPop cities es, 1 ≤ e.2 := by
    intro e he
    rcases boostPop_cases e he with ⟨e0, he0, _, hle⟩
    exact le_trans (h1 e0 he0) hle
  split at he
  · rcases mapSet_sub e he with h' | h'
    · exact hboost e h'
    · rw [h']
      omega
  · exact hboost e he

lemma adjust_keys {cities : List GeobedCity} {es : List (Nat × Nat)}
    (hb : ∀ e ∈ es, e.1 < cities.length) :
    ∀ e ∈ adjustScores cities es, e.1 < cities.length := by
  intro e he
  unfold adjustScores at he
  dsimp only at he
  have hboost : ∀ e ∈ boostPop cities es, e.1 < cities.length := by
    intro e he
    rcases boostPop_cases e he with ⟨e0, he0, hk, _⟩
    rw [hk]
    exact hb e0 he0
  split at he
  · rcases mapSet_sub e he with h' | h'
    · exact hboost e h'
    · rw [h']
      rename_i hcond
      exact hcond.1
  · exact hboost e he

lemma adjust_key_or {cities : List GeobedCity} {es : List (Nat × Nat)} :
    ∀ e ∈ adjustScores cities es, e.1 ∈ es.map Prod.fst ∨ e.2 = 1 := by
  intro e he
  unfold adjustScores at he
  dsimp only at he
  have hboost : ∀ e ∈ boostPop cities es, e.1 ∈ es.map Prod.fst := by
    intro e he
    rcases boostPop_cases e he with ⟨e0, he0, hk, _⟩
    rw [hk]
    exact List.mem_map.mpr ⟨e0, he0, rfl⟩
  split at he
  · rcases mapSet_sub e he with h' | h'
    · exact Or.inl (hboost e h')
    · by_cases hany : (boostPop cities es).any
          fun e => e.1 == hpkOf cities es
      · left
        rcases List.any_eq_true.mp hany with ⟨e2, he2, hk2⟩
        rw [h']
        have : e2.1 = hpkOf cities es := by simpa using hk2
        rw [← this]
        exact hboost e2 he2
      · right
        rw [h']
        simp only
        have hnone : (boostPop cities es).find?
            (fun e => e.1 == hpkOf cities es) = none := by
          rw [List.find?_eq_none]
          intro x hx
          by_contra hcon
          exact hany (List.any_eq_true.mpr ⟨x, hx, by simpa using hcon⟩)
        simp [lookupScore, hnone]
  · exact Or.inl (hboost e he)

lemma adjust_exists_ge2 {cities : List GeobedCity} {es : List (Nat × Nat)}
    (h1 : ∀ e ∈ es, 1 ≤ e.2) {e0 : Nat × Nat} (he0 : e0 ∈ es)
    (he02 : 2 ≤ e0.2) :
    ∃ e ∈ adjustScores cities es, 2 ≤ e.2 := by
  unfold adjustScores
  dsimp only
  rcases @boostPop_exists cities _ _ he0 with ⟨e1, he1, hk1, hle1⟩
  have hboost1 : ∀ e ∈ boostPop cities es, 1 ≤ e.2 := by
    intro e he
    rcases boostPop_cases e he with ⟨e2, he2, _, hle⟩
    exact le_trans (h1 e2 he2) hle
  split
  · by_cases hkey : e1.1 = hpkOf cities es
    · have hany : (boostPop cities es).any
          (fun e => e.1 == hpkOf cities es) = true :=
        List.any_eq_true.mpr ⟨e1, he1, by simpa using hkey⟩
      refine ⟨(hpkOf cities es,
        (lookupScore (boostPop cities es) (hpkOf cities es)).getD 0 + 1),
        mapSet_mem_self hany, ?_⟩
      have := lookupScore_present hany hboost1
      simp only
      omega
    · exact ⟨e1, mapSet_mem_of_ne he1 hkey, by omega⟩
  · exact ⟨e1, he1, by omega⟩

lemma adjust_ne_nil {cities : List GeobedCity} {es : List (Nat × Nat)}
    (hne : es ≠ []) : adjustScores cities es ≠ [] := by
  unfold adjustScores
  dsimp only
  have hbne : boostPop cities es ≠ [] := by
    unfold boostPop
    simpa using hne
  split
  · unfold mapSet
    split
    · simpa using hbne
    · simp
  · exact hbne

/-- Claim C5: in fuzzy/scored mode, when the gathered candidate set is
non-empty and the fast path does not fire (the candidate loop yields the
score map `entries`), the result is: the empty record when no candidate
scored strictly positively; otherwise a city whose key carries the maximal
final (population-adjusted) score, tie-broken by the highest population, and
whose key is one of the scored candidates — never the injected corpus head.
`entries` is the map of strictly positive pre-adjustment scores, and the
final scores are `adjustScores` of it when no country was extracted. -/
theorem claim_c5_fuzzy_selection
    (strip : String → String) (cl rl : List String) (n nCo nSt : String)
    (ab ns : List String) (d : Nat) (cities : List GeobedCity)
    (candidateSet : List Nat)
    (hrange : ∀ i ∈ candidateSet, i < cities.length)
    (entries : List (Nat × Nat))
    (hloop : scoreLoop strip cl rl n nCo nSt ab ns d cities candidateSet []
      = .inr entries) :
    (entries = [] →
      fuzzyMatchCore strip cl rl n nCo nSt ab ns d cities candidateSet
        = emptyCity)
    ∧ (entries ≠ [] →
        ∃ f ∈ (if nCo = "" then adjustScores cities entries else entries),
          f.1 ∈ entries.map Prod.fst
          ∧ fuzzyMatchCore strip cl rl n nCo nSt ab ns d cities candidateSet
              = cityAt cities f.1
          ∧ (∀ e ∈ (if nCo = "" then adjustScores cities entries else entries),
              e.2 ≤ f.2)
          ∧ (∀ e ∈ (if nCo = "" then adjustScores cities entries else entries),
              e.2 = f.2 →
              (cityAt cities e.1).population ≤ (cityAt cities f.1).population)) := by
  have hent : ∀ e ∈ entries, e.1 ∈ candidateSet ∧ 2 ≤ e.2 := by
    intro e he
    rcases scoreLoop_inr strip cl rl n nCo nSt ab ns d cities candidateSet []
        entries hloop e he with h | ⟨hm, hs, hp⟩
    · simp at h
    · refine ⟨hm, ?_⟩
      rw [hs]
      exact scoreCity_two strip cl rl n nCo nSt ab ns d _ (hs ▸ hp)
  have hEb : ∀ e ∈ entries, e.1 < cities.length :=
    fun e he => hrange e.1 (hent e he).1
  constructor
  · intro hnil
    by_cases hcs : candidateSet = []
    · simp [fuzzyMatchCore, hcs]
    · simp only [fuzzyMatchCore, if_neg hcs, hloop]
      simp [fuzzySelect, hnil]
  · intro hne
    have hcs : candidateSet ≠ [] := by
      intro h
      subst h
      simp only [scoreLoop] at hloop
      cases hloop
      exact hne rfl
    have hcore : fuzzyMatchCore strip cl rl n nCo nSt ab ns d cities candidateSet
        = fuzzySelect cities nCo entries := by
      simp only [fuzzyMatchCore, if_neg hcs, hloop]
    rcases List.exists_mem_of_ne_nil entries hne with ⟨e0, he0⟩
    have hfacts : (if nCo = "" then adjustScores cities entries else entries) ≠ []
        ∧ (∀ e ∈ (if nCo = "" then adjustScores cities entries else entries),
            1 ≤ e.2)
        ∧ (∀ e ∈ (if nCo = "" then adjustScores cities entries else entries),
            e.1 < cities.length)
        ∧ (∃ e ∈ (if nCo = "" then adjustScores cities entries else entries),
            2 ≤ e.2)
        ∧ (∀ e ∈ (if nCo = "" then adjustScores cities entries else entries),
            2 ≤ e.2 → e.1 ∈ entries.map Prod.fst) := by
      have hge1 : ∀ e ∈ entries, 1 ≤ e.2 := by
        intro e he
        have := (hent e he).2
        omega
      split
      · refine ⟨adjust_ne_nil hne, adjust_ge1 hge1, adjust_keys hEb, ?_, ?_⟩
        · exact adjust_exists_ge2 hge1 he0 (hent e0 he0).2
        · intro e he h2
          rcases adjust_key_or e he with h | h
          · exact h
          · omega
      · refine ⟨hne, hge1, hEb, ⟨e0, he0, (hent e0 he0).2⟩, ?_⟩
        intro e he _
        exact List.mem_map.mpr ⟨e, he, rfl⟩
    rcases hfacts with ⟨hne2, hge1, hkb, ⟨eg, heg, heg2⟩, hkey⟩
    rcases selLoop_start cities _ hne2 hge1 with ⟨f, hf, heq, hmax, hpop⟩
    have hf2 : 2 ≤ f.2 := le_trans heg2 (hmax eg heg)
    refine ⟨f, hf, hkey f hf hf2, ?_, hmax, hpop⟩
    rw [hcore]
    simp only [fuzzySelect, if_neg hne]
    rw [heq]
    rw [if_pos]
    · simp
    · refine ⟨Int.natCast_nonneg _, ?_⟩
      simp only [Int.toNat_natCast]
      exact hkb f hf

/-- Witness for C5 at a concrete input: one candidate (`cityA`, matching the
query exactly, score 7+2+1 = 10) is selected. -/
theorem claim_c5_witness :
    ∃ f ∈ (if ("" : String) = ""
        then adjustScores [cityA] [(0, 10)] else [(0, 10)]),
      f.1 ∈ [((0 : Nat), (10 : Nat))].map Prod.fst
      ∧ fuzzyMatchCore id [] [] "alpha" "" "" [] ["alpha"] 0 [cityA] [0]
          = cityAt [cityA] f.1
      ∧ (∀ e ∈ (if ("" : String) = ""
            then adjustScores [cityA] [(0, 10)] else [(0, 10)]), e.2 ≤ f.2)
      ∧ (∀ e ∈ (if ("" : String) = ""
            then adjustScores [cityA] [(0, 10)] else [(0, 10)]), e.2 = f.2 →
            (cityAt [cityA] e.1).population ≤ (cityAt [cityA] f.1).population) :=
  (claim_c5_fuzzy_selection id [] [] "alpha" "" "" [] ["alpha"] 0 [cityA] [0]
    (by decide) [(0, 10)] (by rfl)).2 (by decide)

/-- Counterexample to claim C6 as stated.  R7 and R8 are an `if`/`else if`
pair in the code, so a candidate satisfying both conditions receives only the
+7 bonus: with query `"abc"`, fuzzy distance 1 and city name `"abc"`, the
actual score is 10 (R7 + R9 + R10) while the specification's independent
bonuses would give 15; the R8 condition holds (token length 3 > 2 and the
edit distance 0 is within 1). -/
theorem claim_c6_counterexample :
    scoreCity id [] [] "abc" "" "" [] ["abc"] 1
      { city := "abc", cityAlt := "", countryIdx := 0, regionIdx := 0,
        latitude := 0, longitude := 0, population := 0 } = 10
    ∧ jsToLower "abc" = jsToLower "abc"
    ∧ (0 < 1 ∧ 2 < strLength (trimTrailingComma "abc")
        ∧ fuzzyMatch (trimTrailingComma "abc") "abc" 1 = true)
    ∧ fuzzyTokenScore ["abc"] "abc" 1 = 5
    ∧ (10 : Nat) ≠ 10 + 5 := by
  refine ⟨by rfl, rfl, ⟨by decide, by decide, by rfl⟩, by rfl, by decide⟩

/-- Claim C6 (amended): R7 and R8 are mutually exclusive.  Whenever the R7
condition holds (lowercased query equals the — possibly diacritic-stripped —
lowercased city name), the candidate receives the +7 bonus and the R8
per-token fuzzy bonus never fires: the score is independent of the fuzzy
distance.  The R8 bonus applies only in the `else` branch, when R7 fails and
the fuzzy distance is positive. -/
theorem claim_c6_r7_r8_exclusive (strip : String → String)
    (cl rl : List String) (n nCo nSt : String) (ab ns : List String)
    (d d2 : Nat) (v : GeobedCity)
    (h7 : jsToLower n = jsToLower v.city
        ∨ jsToLower n = strip (jsToLower v.city)) :
    scoreCity strip cl rl n nCo nSt ab ns d v
      = scoreCity strip cl rl n nCo nSt ab ns d2 v := by
  unfold scoreCity scoreExact
  rw [if_pos h7, if_pos h7]

/-- Witness for (amended) C6 at a concrete input: with the R7 condition
satisfied, fuzzy distances 0 and 5 give the same score. -/
theorem claim_c6_witness :
    scoreCity id [] [] "abc" "" "" [] ["abc"] 0
      { city := "abc", cityAlt := "", countryIdx := 0, regionIdx := 0,
        latitude := 0, longitude := 0, population := 0 }
    = scoreCity id [] [] "abc" "" "" [] ["abc"] 5
      { city := "abc", cityAlt := "", countryIdx := 0, regionIdx := 0,
        latitude := 0, longitude := 0, population := 0 } :=
  claim_c6_r7_r8_exclusive id [] [] "abc" "" "" [] ["abc"] 0 5 _
    (Or.inl rfl)

/-! ## S2 cell arithmetic (`src/s2-geometry.ts`).  Cell ids are nonnegative
64-bit BigInt values, modelled as `Nat`; `i`/`j` coordinates are JavaScript
numbers that may go negative, modelled as `Int`, and every JS bitwise
operator applied to them (`<<`, `>>`, `&`, `|`) converts its operands to
signed 32-bit integers first, modelled by the `js*` operators below.  The
two 1024-entry Hilbert lookup arrays are modelled as functions `Nat → Nat`
built by the same recursive initialization. -/

/-- `POS_TO_IJ[orientation][index]` (`src/s2-geometry.ts` 76-81). -/
def posToIJ (orientation index : Nat) : Nat :=
  (([[0, 1, 3, 2], [0, 2, 3, 1], [3, 2, 0, 1], [3, 1, 0, 2]].getD
    orientation []).getD index 0)

/-- `POS_TO_ORIENTATION = [SWAP_MASK, 0, 0, INVERT_MASK | SWAP_MASK]`. -/
def posToOrientation (index : Nat) : Nat :=
  [1, 0, 0, 3].getD index 0

/-- A functional update of a lookup table. -/
def tblUpd (t : Nat → Nat) (k v : Nat) : Nat → Nat :=
  fun x => if x = k then v else t x

/-- `initLookupCell` (`src/s2-geometry.ts` 84-107), with the remaining depth
`4 - level` as the (structural) fuel; fuel 0 is the `level === 4` base case.
The recursive loop body shifts `i`, `j`, `pos` and descends into the four
Hilbert children in index order. -/
def initLookupCell : Nat → Nat → Nat → Nat → Nat → Nat →
    ((Nat → Nat) × (Nat → Nat)) → ((Nat → Nat) × (Nat → Nat))
  | 0, i, j, origOrientation, pos, orientation, t =>
    let ij := (i <<< 4) ||| j
    (tblUpd t.1 ((ij <<< 2) ||| origOrientation) ((pos <<< 2) ||| orientation),
     tblUpd t.2 ((pos <<< 2) ||| origOrientation) ((ij <<< 2) ||| orientation))
  | fuel + 1, i, j, origOrientation, pos, orientation, t =>
    initLookupCell fuel ((i <<< 1) + (posToIJ orientation 3 >>> 1))
      ((j <<< 1) + (posToIJ orientation 3 &&& 1)) origOrientation
      ((pos <<< 2) + 3) (orientation ^^^ posToOrientation 3)
      (initLookupCell fuel ((i <<< 1) + (posToIJ orientation 2 >>> 1))
        ((j <<< 1) + (posToIJ orientation 2 &&& 1)) origOrientation
        ((pos <<< 2) + 2) (orientation ^^^ posToOrientation 2)
        (initLookupCell fuel ((i <<< 1) + (posToIJ orientation 1 >>> 1))
          ((j <<< 1) + (posToIJ orientation 1 &&& 1)) origOrientation
          ((pos <<< 2) + 1) (orientation ^^^ posToOrientation 1)
          (initLookupCell fuel ((i <<< 1) + (posToIJ orientation 0 >>> 1))
            ((j <<< 1) + (posToIJ orientation 0 &&& 1)) origOrientation
            ((pos <<< 2) + 0) (orientation ^^^ posToOrientation 0) t)))

/-- The module-load table initialization (`src/s2-geometry.ts` 110-115). -/
def lookupTables : (Nat → Nat) × (Nat → Nat) :=
  initLookupCell 4 0 0 3 0 3
    (initLookupCell 4 0 0 2 0 2
      (initLookupCell 4 0 0 1 0 1
        (initLookupCell 4 0 0 0 0 0 (fun _ => 0, fun _ => 0))))

def LOOKUP_POS (k : Nat) : Nat := lookupTables.1 k

def LOOKUP_IJ (k : Nat) : Nat := lookupTables.2 k

/-- JavaScript `ToInt32`: reduce an integer modulo `2^32` into the signed
range `[-2^31, 2^31)`.  Every JS bitwise operator applies this conversion to
its operands and produces a result in this range. -/
def jsToInt32 (x : Int) : Int :=
  let r := x % 4294967296
  if r < 2147483648 then r else r - 4294967296

/-- JavaScript `a << n` for a shift count already in `[0, 31]`: convert `a`
to Int32, multiply by `2^n`, and wrap the result back to Int32. -/
def jsShl (a : Int) (n : Nat) : Int := jsToInt32 (jsToInt32 a * 2 ^ n)

/-- JavaScript `a >> n` (sign-propagating right shift) for a shift count in
`[0, 31]`: floor division of the Int32 value of `a` by `2^n`. -/
def jsShr (a : Int) (n : Nat) : Int := Int.fdiv (jsToInt32 a) (2 ^ n)

/-- JavaScript `a & b`: bitwise AND of the unsigned 32-bit representatives,
read back as Int32. -/
def jsAnd (a b : Int) : Int :=
  jsToInt32 (((a % 4294967296).toNat &&& (b % 4294967296).toNat : Nat) : Int)

/-- JavaScript `a | b`: bitwise OR of the unsigned 32-bit representatives,
read back as Int32. -/
def jsOr (a b : Int) : Int :=
  jsToInt32 (((a % 4294967296).toNat ||| (b % 4294967296).toNat : Nat) : Int)

/-- `cellIDFromFaceIJ` (`src/s2-geometry.ts` 117-128): interleave the
Hilbert-transformed 4-bit groups of `i` and `j` below the face bits
(`POS_BITS - 1 = 60`), then append the leaf lsb (`n * 2 + 1`).  `i` and `j`
are JS numbers fed to 32-bit `>>`/`&`, so they are `Int` and the chunk
arithmetic uses the Int32 operators; each chunk lands in `[0, 15]`, so the
table index `bits` is a nonnegative number below 1024 and the accumulator
`n` (a BigInt in the source) stays a plain `Nat`. -/
def cellIDFromFaceIJ (face : Nat) (i j : Int) : Nat :=
  let r := [7, 6, 5, 4, 3, 2, 1, 0].foldl
    (fun (nb : Nat × Int) k =>
      let mask : Int := 15
      let bits := nb.2
        + jsShl (jsOr (jsShl (jsAnd (jsShr i (k * 4)) mask) 4)
            (jsAnd (jsShr j (k * 4)) mask)) 2
      let bits2 := LOOKUP_POS bits.toNat
      ((nb.1 ||| ((bits2 >>> 2) <<< (k * 2 * 4))), ((bits2 &&& 3 : Nat) : Int)))
    (face <<< 60, ((face &&& 1 : Nat) : Int))
  r.1 * 2 + 1

/-- `lsbForLevel` / `cellIDParent` (`src/s2-geometry.ts` 130-137): over
nonnegative BigInt, `cellId & (-lsb) | lsb` clears the bits below the lsb
position and sets that bit. -/
def cellIDParent (cellId : Nat) (level : Int) : Nat :=
  let k := 2 * ((30 : Int) - level).toNat
  ((cellId >>> k) <<< k) ||| (1 <<< k)

def cellIDFace (id : Nat) : Nat := id >>> 61

/-- `id & (-id)` over nonnegative BigInt: the lowest set bit. -/
def lowestSetBit (id : Nat) : Nat := id &&& (id ^^^ (id - 1))

/-- The `while (lsb > 1) { lsb >>= 2; level--; }` loop of `cellIDLevel`,
fuel-driven (any id below `2^64` needs at most 32 iterations). -/
def levelFromLsb : Nat → Nat → Int → Int
  | 0, _, level => level
  | f + 1, lsb, level =>
    if lsb ≤ 1 then level else levelFromLsb f (lsb >>> 2) (level - 1)

/-- `cellIDLevel` (`src/s2-geometry.ts` 165-174). -/
def cellIDLevel (id : Nat) : Int :=
  if id = 0 then -1 else levelFromLsb 32 (lowestSetBit id) 30

/-- `cellIDToFaceIJ` (`src/s2-geometry.ts` 176-192): invert the Hilbert
interleaving, recovering the face and the leaf `(i, j)` encoded by the id's
position bits.  The accumulators `i` and `j` are JS numbers shifted with the
32-bit `<<`, so they are `Int` and the shift is `jsShl` (which wraps at
`2^31`); the table value `bits2` and the per-step addends are nonnegative
numbers below 1024, handled as `Nat` and added with exact JS `+`. -/
def cellIDToFaceIJ (id : Nat) : Nat × Int × Int :=
  let face := cellIDFace id
  let r := [7, 6, 5, 4, 3, 2, 1, 0].foldl
    (fun (st : Nat × Int × Int) k =>
      let nbits := if k = 7 then 30 - 7 * 4 else 4
      let bits := st.1
        + (((id >>> (k * 2 * 4 + 1)) &&& ((1 <<< (2 * nbits)) - 1)) <<< 2)
      let bits2 := LOOKUP_IJ bits
      (bits2 &&& 3,
       jsShl st.2.1 nbits + ((bits2 >>> (nbits + 2) : Nat) : Int),
       jsShl st.2.2 nbits
         + (((bits2 >>> 2) &&& ((1 <<< nbits) - 1) : Nat) : Int)))
    (face &&& 1, 0, 0)
  (face, r.2.1, r.2.2)

/-- `sizeIJ` (`src/s2-geometry.ts` 194-196); only applied to levels in
`[0, 30]`. -/
def sizeIJ (level : Int) : Int :=
  ((1 <<< ((30 : Int) - level).toNat : Nat) : Int)

/-- `cellIDFromFaceIJWrap` (`src/s2-geometry.ts` 198-204): out-of-range
`i`/`j` are CLAMPED into `[0, 2^30 - 1]` on the SAME face (despite the
function's name, no wrapping through the adjacent face happens). -/
def cellIDFromFaceIJWrap (face : Nat) (i j : Int) (level : Int) : Nat :=
  let maxSize : Int := ((1 <<< 30 : Nat) : Int)
  let ci := max 0 (min (maxSize - 1) i)
  let cj := max 0 (min (maxSize - 1) j)
  cellIDParent (cellIDFromFaceIJ face ci cj) level

/-- `cellIDFromFaceIJSame` (`src/s2-geometry.ts` 206-212). -/
def cellIDFromFaceIJSame (face : Nat) (i j : Int) (sameFace : Bool)
    (level : Int) : Nat :=
  if sameFace then cellIDParent (cellIDFromFaceIJ face i j) level
  else cellIDFromFaceIJWrap face i j level

/-- `cellIDEdgeNeighbors` (`src/s2-geometry.ts` 214-225), as the 4-element
list (down, right, up, left). -/
def cellIDEdgeNeighbors (id : Nat) : List Nat :=
  let level := cellIDLevel id
  let size := sizeIJ level
  let fij := cellIDToFaceIJ id
  let face := fij.1
  let i : Int := fij.2.1
  let j : Int := fij.2.2
  [cellIDFromFaceIJSame face i (j - size) (decide (0 ≤ j - size)) level,
   cellIDFromFaceIJSame face (i + size) j
     (decide (i + size < ((1 <<< 30 : Nat) : Int))) level,
   cellIDFromFaceIJSame face i (j + size)
     (decide (j + size < ((1 <<< 30 : Nat) : Int))) level,
   cellIDFromFaceIJSame face (i - size) j (decide (0 ≤ i - size)) level]

set_option maxRecDepth 1000000 in
/-- Claim C9 fails on the code: evaluating the embedded `cellIDEdgeNeighbors`
(with JS 32-bit integer semantics on the `i`/`j` arithmetic) shows (a) the
valid level-0 cell of face 0 (id `2^60`) receives ITSELF as three of its four
edge neighbors — out-of-face neighbors are clamped into the same face by
`cellIDFromFaceIJWrap` instead of wrapped through the adjacent face — and its
one remaining neighbor lies on the impossible face 15, and (b) a level-10
cell well inside face 0 receives three neighbors on the impossible face 14:
the `k = 7` step of `cellIDToFaceIJ` reads a 2-bit chunk but shifts by the
full 4-bit table width, inflating the decoded `i`, which the 32-bit `<<`
then wraps to a negative number.  Both contradict the claimed invariants
(four distinct neighbors, none equal to the cell, all on faces 0-5). -/
theorem claim_c9_neighbors_eval :
    cellIDEdgeNeighbors (1 <<< 60)
      = [1 <<< 60, 35740566642812256256, 1 <<< 60, 1 <<< 60]
    ∧ cellIDFace 35740566642812256256 = 15
    ∧ cellIDLevel (1 <<< 60) = 0
    ∧ cellIDFace (1 <<< 60) = 0
    ∧ (cellIDEdgeNeighbors
        (cellIDParent (cellIDFromFaceIJ 0 536870912 536870912) 10)).map
          cellIDFace = [14, 14, 14, 0]
    ∧ cellIDLevel (cellIDParent (cellIDFromFaceIJ 0 536870912 536870912) 10)
        = 10 := by
  refine ⟨by rfl, by rfl, by rfl, by rfl, by rfl, by rfl⟩
